import Mathlib

/-!
Verification of the commit-ai diff-preparation pipeline, message parser,
generation-session manager and dashboard state machine.

JavaScript strings are modelled as lists of characters (`Str`), JS numbers
used as integer counters/lengths as `Nat` (with `Int` where the source can
go negative), and the elevation threshold (a JS float compared against a
ratio) as `ℚ`.  Each definition mirrors one function of the source.
-/

set_option maxRecDepth 100000

namespace CommitAI

/-- JS strings are modelled as lists of characters. -/
abbrev Str := List Char

/-- ASCII whitespace, the fragment of JS `\s` / `trim` relevant to the inputs. -/
def isWs (c : Char) : Bool := c = ' ' || c = '\t' || c = '\n' || c = '\r'

/-- JS `String.prototype.trimStart`. -/
def trimStart (s : Str) : Str := s.dropWhile isWs

/-- JS `String.prototype.trimEnd`. -/
def trimEnd (s : Str) : Str := (s.reverse.dropWhile isWs).reverse

/-- JS `String.prototype.trim`. -/
def jsTrim (s : Str) : Str := trimEnd (trimStart s)

/-- JS `string.split(sep)` for a one-character separator: always returns at
least one (possibly empty) field. -/
def splitCh (sep : Char) : Str → List Str
  | [] => [[]]
  | c :: cs =>
    if c = sep then [] :: splitCh sep cs
    else
      match splitCh sep cs with
      | [] => [[c]]
      | g :: gs => (c :: g) :: gs

/-- JS `array.join(sep)` for a one-character separator. -/
def joinSep (sep : Char) : List Str → Str
  | [] => []
  | [x] => x
  | x :: y :: xs => x ++ sep :: joinSep sep (y :: xs)

/-- JS `string.startsWith(p)`. -/
def sw (p : String) (s : Str) : Bool := p.data.isPrefixOf s

/-- JS `\w` character class: ASCII letters, digits and underscore. -/
def isWordCh (c : Char) : Bool := c.isAlpha || c.isDigit || c = '_'

/-- Fuel-driven digit expansion; any fuel above the number itself yields the
full decimal expansion (structural recursion keeps it kernel-reducible). -/
def natDigitsGo : Nat → Nat → Str
  | 0, _ => []
  | fuel + 1, n =>
    if n < 10 then [Char.ofNat (48 + n)]
    else natDigitsGo fuel (n / 10) ++ [Char.ofNat (48 + n % 10)]

/-- Decimal digit characters of a natural number (JS number-to-string
interpolation for a non-negative integer). -/
def natDigits (n : Nat) : Str := natDigitsGo (n + 1) n

/-- JS `Number(...)` on a run of decimal digits. -/
def natOfDigits (ds : Str) : Nat :=
  ds.foldl (fun a c => 10 * a + (c.toNat - 48)) 0

/-- JS `string.indexOf(c)` for a one-character needle. -/
def idxOf (c : Char) : Str → Option Nat
  | [] => none
  | d :: ds => if d = c then some 0 else (idxOf c ds).map (· + 1)

/-! ## Diff sanitizer (`sanitizeDiff`) -/

/-- The `CONFLICT_MARKERS` regex `^(<<<<<<<|=======|>>>>>>>|\|\|\|\|\|\|\|)`,
applied to a (trimmed) line. -/
def conflictMarkerTest (t : Str) : Bool :=
  sw "<<<<<<<" t || sw "=======" t || sw ">>>>>>>" t || sw "|||||||" t

/-- Strips conflict-marker lines; when any were removed, appends the single
notice line, exactly as the source does. -/
def sanitizeDiff (diff : Str) : Str :=
  let lines := splitCh '\n' diff
  let kept := lines.filter (fun line => !(conflictMarkerTest (jsTrim line)))
  let result := joinSep '\n' kept
  if kept.length < lines.length then result ++ "\n[Conflict markers removed from diff.]\n".data
  else result

/-! ## Language detection (`getLanguageFromPath`) -/

/-- Last `/`-separated component of a path (JS `path.split("/").pop() ?? path`). -/
def lastComponent (path : Str) : Str := (splitCh '/' path).getLastD path

/-- Extension including the dot, lower-cased; empty when the base name has no
dot (JS `base.slice(base.lastIndexOf("."))` guarded by `base.includes(".")`). -/
def extFrom (base : Str) : Str :=
  if base.contains '.' then
    ('.' :: (base.reverse.takeWhile (fun c => c != '.')).reverse).map Char.toLower
  else []

/-- The extension-to-language map from `getLanguageFromPath`. -/
def langExtTable : List (Str × Str) :=
  [(".py".data, "python".data), (".rs".data, "rust".data), (".go".data, "go".data),
   (".ts".data, "ts".data), (".tsx".data, "ts".data), (".js".data, "js".data),
   (".jsx".data, "js".data), (".mjs".data, "js".data), (".cjs".data, "js".data),
   (".java".data, "java".data), (".kt".data, "kt".data), (".cpp".data, "cpp".data),
   (".c".data, "cpp".data), (".h".data, "cpp".data), (".rb".data, "rb".data),
   (".php".data, "php".data), (".sh".data, "shell".data), (".yml".data, "none".data),
   (".yaml".data, "none".data)]

/-- Derives a language id from a file path.  Note the source's fallback for an
unrecognized extension is `map[ext] ?? "js"`, i.e. `"js"`, not `"none"`. -/
def getLanguageFromPath (path : Str) : Str :=
  let base := lastComponent path
  if base = "Makefile".data ∨ base = "makefile".data then "none".data
  else ((langExtTable.lookup (extFrom base)).getD "js".data)

/-! ## Import-line predicates: executable semantics of the
`DEFAULT_IMPORT_PATTERNS` regexes, each applied to the trimmed content of a
diff line (after its `+`/`-` sign). -/

/-- Match of `\s+from\s+` preceded by arbitrary `.*`: an occurrence of a
whitespace character directly followed by `from` and a whitespace character. -/
def containsWsFromWs : Str → Bool
  | [] => false
  | c :: rest =>
    (isWs c && sw "from" rest && (match rest.drop 4 with
      | d :: _ => isWs d
      | [] => false)) || containsWsFromWs rest

/-- Head of a string is whitespace. -/
def headIsWs (s : Str) : Bool :=
  match s with
  | c :: _ => isWs c
  | [] => false

/-- Regex `^(\s*)(import\s|export\s+.*\s+from\s+|import\s*\()` (the `js`
pattern). -/
def jsImportTest (content : Str) : Bool :=
  let r := content.dropWhile isWs
  (sw "import" r && headIsWs (r.drop 6)) ||
  (sw "export" r && headIsWs (r.drop 6) && containsWsFromWs ((r.drop 6).drop 1)) ||
  (sw "import" r && sw "(" ((r.drop 6).dropWhile isWs))

/-- Regex `^(\s*)(import\s|export\s+.*\s+from\s+|import\s+type\s+|import\s*\()`
(the `ts` pattern); the `import\s+type\s+` alternative is subsumed by
`import\s` but is kept for fidelity. -/
def tsImportTest (content : Str) : Bool :=
  let r := content.dropWhile isWs
  (sw "import" r && headIsWs (r.drop 6)) ||
  (sw "export" r && headIsWs (r.drop 6) && containsWsFromWs ((r.drop 6).drop 1)) ||
  (sw "import" r && headIsWs (r.drop 6) &&
    sw "type" ((r.drop 6).dropWhile isWs) && headIsWs (((r.drop 6).dropWhile isWs).drop 4)) ||
  (sw "import" r && sw "(" ((r.drop 6).dropWhile isWs))

/-- Regex `^(import\s|from\s+.*\s+import\s)` (the `python` pattern). -/
def pythonImportTest (r : Str) : Bool :=
  (sw "import" r && headIsWs (r.drop 6)) ||
  (sw "from" r && headIsWs (r.drop 4) &&
    (let t := (r.drop 4).drop 1
     -- occurrence of `\s+import\s`: whitespace, `import`, whitespace
     (t.tails.any (fun u =>
        headIsWs u && sw "import" (u.drop 1) && headIsWs ((u.drop 1).drop 6)))))

/-- Regex `^(pub\s+)?use\s+` (the `rust` pattern). -/
def rustImportTest (r : Str) : Bool :=
  (sw "use" r && headIsWs (r.drop 3)) ||
  (sw "pub" r && headIsWs (r.drop 3) &&
    (let t := (r.drop 3).dropWhile isWs
     sw "use" t && headIsWs (t.drop 3)))

/-- Regex `^import\s*\(|^import\s+"` (the `go` pattern). -/
def goImportTest (r : Str) : Bool :=
  (sw "import" r && sw "(" ((r.drop 6).dropWhile isWs)) ||
  (sw "import" r && headIsWs (r.drop 6) &&
    sw "\x22" ((r.drop 6).dropWhile isWs))

/-- Regex `^import\s+` (the `java` and `kt` patterns). -/
def javaImportTest (r : Str) : Bool :=
  sw "import" r && headIsWs (r.drop 6)

/-- The effective import-pattern map built by `getImportPatterns` from
`DEFAULT_IMPORT_PATTERNS` plus the never-matching `none` entry (the default
configuration, without custom `languageImportPatterns`). -/
def defaultImportPattern (lang : Str) : Option (Str → Bool) :=
  if lang = "js".data then some jsImportTest
  else if lang = "ts".data then some tsImportTest
  else if lang = "python".data then some pythonImportTest
  else if lang = "rust".data then some rustImportTest
  else if lang = "go".data then some goImportTest
  else if lang = "java".data then some javaImportTest
  else if lang = "kt".data then some javaImportTest
  else if lang = "none".data then some (fun _ => false)
  else none

/-- Returns true when a diff line (with leading `+` or `-`) is an import line
for the language: `patterns[language] ?? patterns["js"]` applied to the
trimmed content after the sign. -/
def isImportLine (line : Str) (language : Str) : Bool :=
  let trimmed := jsTrim line
  match trimmed with
  | [] => false
  | c :: rest =>
    if (c = '+' || c = '-') && rest ≠ [] then
      ((defaultImportPattern language).getD
        ((defaultImportPattern "js".data).getD (fun _ => false))) (jsTrim rest)
    else false

/-- The sign the source assigns to a run head:
`line.trimStart().startsWith("+") ? "+" : "-"`. -/
def signOf (line : Str) : Char :=
  if sw "+" (trimStart line) then '+' else '-'

/-- One placeholder line for a collapsed run of `count` import lines. -/
def importPlaceholder (pfxCh : Char) (count : Nat) : Str :=
  pfxCh :: " ... ".data ++ natDigits count ++ " import line".data ++
    (if count ≠ 1 then "s".data else []) ++ " ...".data

/-- Fuel-driven scan of `collapseImportLines` over the chunk's lines: a
maximal run of consecutive same-sign import lines becomes one placeholder.
The inner `while` of the source counts the head line (which satisfies the run
predicate by the outer test) plus the matching prefix of the remaining lines.
Every step consumes at least one line, so fuel equal to the number of lines
suffices. -/
def collapseRunsGo (lang : Str) : Nat → List Str → List Str
  | _, [] => []
  | 0, lines => lines
  | fuel + 1, l :: rest =>
    if isImportLine l lang then
      let pfxCh := signOf l
      let runRest := rest.takeWhile (fun x => isImportLine x lang && signOf x = pfxCh)
      importPlaceholder pfxCh (runRest.length + 1) ::
        collapseRunsGo lang fuel (rest.drop runRest.length)
    else l :: collapseRunsGo lang fuel rest

/-- The scan of `collapseImportLines` over the chunk's lines. -/
def collapseRuns (lang : Str) (lines : List Str) : List Str :=
  collapseRunsGo lang lines.length lines

/-- Collapses consecutive import lines in one file chunk.  The source takes
the whole `Config`; only `config.importCollapse` is read (a missing value is
not `=== false`, so collapsing is enabled unless the flag is literally
`false`). -/
def collapseImportLines (chunk : Str) (path : Str) (importCollapse : Option Bool) : Str :=
  if importCollapse = some false then chunk
  else joinSep '\n' (collapseRuns (getLanguageFromPath path) (splitCh '\n' chunk))

/-! ## Stat parsing (`parseStatForLineCounts`) -/

/-- Regex `^\s*\d+\s+files? changed` (the trailing summary line of
`git diff --stat`). -/
def filesChangedTest (line : Str) : Bool :=
  let t := line.dropWhile isWs
  let ds := t.takeWhile Char.isDigit
  ds ≠ [] &&
    (let r := t.drop ds.length
     headIsWs r &&
       (let r2 := r.dropWhile isWs
        sw "files changed" r2 || sw "file changed" r2))

/-- JS `Map.set` on a key-ordered association list: overwrites an existing
entry in place, otherwise appends. -/
def mapSet (acc : List (Str × Nat × Nat)) (k : Str) (v : Nat × Nat) :
    List (Str × Nat × Nat) :=
  if acc.any (fun e => e.1 = k) then
    acc.map (fun e => if e.1 = k then (k, v) else e)
  else acc ++ [(k, v)]

/-- The added/removed pair computed from the part of a stat line after the
pipe (`rest`, already trimmed): the digit run gives the total
(`rest.match(/^\s*(\d+)(.*)$/)` with the leading `\s*` empty since `rest` is
trimmed), the remainder gives the bar, and the `+`/`-` counts select the
attribution branch. -/
def statAr (rest : Str) : Nat × Nat :=
  let ds := rest.takeWhile Char.isDigit
  let total := if ds = [] then 0 else natOfDigits ds
  let bar := if ds = [] then [] else jsTrim (rest.drop ds.length)
  let plusCount := bar.count '+'
  let minusCount := bar.count '-'
  if plusCount > 0 ∨ minusCount > 0 then
    if plusCount > 0 ∧ minusCount > 0 then (plusCount, minusCount)
    else if plusCount > 0 then (total, 0)
    else (0, total)
  else (total, 0)

/-- One iteration of the `parseStatForLineCounts` loop on one stat line. -/
def parseStatLine (acc : List (Str × Nat × Nat)) (line : Str) :
    List (Str × Nat × Nat) :=
  if filesChangedTest line then acc
  else
    match idxOf '|' line with
    | none => acc
    | some pipe =>
      let path := jsTrim (line.take pipe)
      let rest := jsTrim (line.drop (pipe + 1))
      mapSet acc path (statAr rest)

/-- Parses `git diff --staged --stat` output into per-file (added, removed)
counts, in map insertion order. -/
def parseStatForLineCounts (stat : Str) : List (Str × Nat × Nat) :=
  let lines := (splitCh '\n' (jsTrim stat)).filter (fun l => l ≠ [])
  lines.foldl parseStatLine []

/-! ## Priority classifier (`pathPriority`) -/

/-- The `LOCKFILE_NAMES` set. -/
def lockfileNames : List Str :=
  ["package-lock.json".data, "yarn.lock".data, "pnpm-lock.yaml".data,
   "bun.lockb".data, "Cargo.lock".data, "go.sum".data]

/-- The `DEPRIORITIZED_DIRS` list. -/
def deprioritizedDirs : List Str :=
  ["dist/".data, "build/".data, ".cache/".data, "out/".data, "coverage/".data]

/-- The `PREFERRED_EXTENSIONS` set. -/
def preferredExtensions : List Str :=
  [".ts".data, ".tsx".data, ".js".data, ".jsx".data, ".mjs".data, ".cjs".data,
   ".py".data, ".go".data, ".rs".data, ".java".data, ".kt".data, ".cpp".data,
   ".c".data, ".h".data, ".rb".data, ".php".data, ".sh".data]

/-- The `MANIFEST_BASES` set. -/
def manifestBases : List Str :=
  ["package.json".data, "Cargo.toml".data, "go.mod".data, "pyproject.toml".data,
   "build.gradle".data, "build.gradle.kts".data, "Gemfile".data,
   "requirements.txt".data]

/-- Numeric priority for file-aware truncation: 0 = lockfiles/deprioritized,
1 = other, 2 = preferred. -/
def pathPriority (path : Str) : Nat :=
  let base := lastComponent path
  if base ∈ lockfileNames then 0
  else if deprioritizedDirs.any (fun d => d.isPrefixOf (path.map Char.toLower)) then 0
  else if base ∈ manifestBases then 2
  else if extFrom base ∈ preferredExtensions then 2
  else 1

/-! ## Elevation calculator (`computeElevatedPaths`) -/

/-- Computes which low-tier (priority ≤ 1) paths are elevated for this diff.
The threshold comparison `lowTierLines / total <= threshold` is modelled over
`ℚ`. -/
def computeElevatedPaths (stat : Str) (threshold : ℚ) (minLines : Nat)
    (pathPriorityFn : Str → Nat) : List Str :=
  let counts := parseStatForLineCounts stat
  let total : Nat := counts.foldl (fun a e => a + e.2.1 + e.2.2) 0
  let lowTierLines : Nat :=
    counts.foldl (fun a e => if pathPriorityFn e.1 ≤ 1 then a + e.2.1 + e.2.2 else a) 0
  let lowTierPaths := (counts.filter (fun e => pathPriorityFn e.1 ≤ 1)).map (·.1)
  if total < minLines ∨ total = 0 then []
  else if (lowTierLines : ℚ) / (total : ℚ) ≤ threshold then []
  else lowTierPaths

/-! ## Chunk splitting (`splitDiffIntoFileChunks`) -/

/-- A line at which `split(/(?=^diff --git )/m)` starts a new part. -/
def isChunkBoundary (l : Str) : Bool := sw "diff --git " l

/-- Groups the diff's lines into per-chunk runs; a boundary line starts a new
group, and a boundary at the very first line starts the first group without an
empty part before it (a zero-width split match at position 0 yields none). -/
def chunkGroupsGo (cur : List Str) : List Str → List (List Str)
  | [] => [cur.reverse]
  | l :: rs =>
    if isChunkBoundary l then cur.reverse :: chunkGroupsGo [l] rs
    else chunkGroupsGo (l :: cur) rs

/-- Groups of lines, one per split part. -/
def chunkGroups (lines : List Str) : List (List Str) :=
  match lines with
  | [] => []
  | l :: rest => chunkGroupsGo [l] rest

/-- Rebuilds the text of each split part; every part except the last keeps the
newline that separated it from the next part (the split point is immediately
before the `d` of `diff --git`, after the newline). -/
def renderGroups : List (List Str) → List Str
  | [] => []
  | [g] => [joinSep '\n' g]
  | g :: g2 :: gs => (joinSep '\n' g ++ ['\n']) :: renderGroups (g2 :: gs)

/-- Semantics of the header regex
`^diff --git a\/(.+?) b\/(.+?)(?:\s|$)` applied to one line: the lazy group 1
stops at the first ` b/` whose following group 2 (one character plus the
following non-whitespace run) is non-empty, with backtracking past ` b/`
occurrences whose remainder is empty. -/
def matchHeaderAfterA : Str → Option Str
  | [] => none
  | _ :: t =>
    -- group 1 takes at least the one character `c`, then we look for ` b/`
    if sw " b/" t then
      let afterB := t.drop 3
      match afterB with
      | [] => matchHeaderAfterA t
      | d :: ds => some (d :: ds.takeWhile (fun e => !(isWs e)))
    else matchHeaderAfterA t

/-- Matches the header regex on one line. -/
def matchHeaderLine (l : Str) : Option Str :=
  if sw "diff --git a/" l then matchHeaderAfterA (l.drop 13) else none

/-- First match of the header regex over the chunk's lines (`m` flag). -/
def extractChunkPath (chunk : Str) : Str :=
  ((splitCh '\n' chunk).findSome? matchHeaderLine).getD "unknown".data

/-- Splits a raw diff into one `(path, chunk)` pair per file, with the
single-blob fallback when no parts survive. -/
def splitDiffIntoFileChunks (diff : Str) : List (Str × Str) :=
  let parts := (renderGroups (chunkGroups (splitCh '\n' diff))).filter (fun p => p ≠ [])
  let chunks := parts.map (fun chunk => (extractChunkPath chunk, chunk))
  if chunks = [] ∧ jsTrim diff ≠ [] then [("unknown".data, diff)] else chunks

/-! ## Truncator (`truncateDiff`) -/

/-- Result of the smart-diff pipeline. -/
structure PreparedDiff where
  content : Str
  wasTruncated : Bool
deriving Repr, DecidableEq

/-- Effective tier: 3 when elevated, otherwise the classifier tier. -/
def getEffectivePriority (elevatedPaths : List Str) (path : Str) : Nat :=
  if path ∈ elevatedPaths then 3 else pathPriority path

/-- The JS sort comparator
`prio(b) - prio(a) || indexOf(a) - indexOf(b)` as a total order over
index-tagged chunks: effective tier descending, then original order
ascending. -/
def chunkLe (elevatedPaths : List Str) (a b : Nat × Str × Str) : Bool :=
  let pa := getEffectivePriority elevatedPaths a.2.1
  let pb := getEffectivePriority elevatedPaths b.2.1
  decide (pb < pa) || (decide (pa = pb) && decide (a.1 ≤ b.1))

/-- Insertion of one element into a `le`-sorted list. -/
def insSorted (le : α → α → Bool) (x : α) : List α → List α
  | [] => [x]
  | y :: ys => if le x y then x :: y :: ys else y :: insSorted le x ys

/-- Insertion sort; for the injective total order `chunkLe` this yields the
same sequence as the source's stable `Array.prototype.sort`. -/
def insertionSort (le : α → α → Bool) (l : List α) : List α :=
  l.foldr (insSorted le) []

/-- The backwards tail-collection loop of the elision branch: walks the
chunk's lines last-to-first, keeping lines while
`tailLength + line.length + 1` stays within the budget. -/
def takeTailGo (budget : Nat) : List Str → Nat → List Str → List Str
  | [], _, acc => acc
  | l :: ls, tl, acc =>
    if tl + l.length + 1 > budget then acc
    else takeTailGo budget ls (tl + l.length + 1) (l :: acc)

/-- The elision marker `...[truncated, N line(s) omitted]...`. -/
def markerOf (omitted : Nat) : Str :=
  "...[truncated, ".data ++ natDigits omitted ++ " line".data ++
    (if omitted ≠ 1 then "s".data else []) ++ " omitted]...".data

/-- The tail lines kept for a partially elided chunk. -/
def tailLinesOf (chunk : Str) (budget : Nat) : List Str :=
  takeTailGo budget (splitCh '\n' chunk).reverse 0 []

/-- The partially elided chunk: header line, marker naming the omitted line
count, kept tail lines. -/
def elidedChunk (chunk : Str) (budget : Nat) : Str :=
  let lines := splitCh '\n' chunk
  let tailLines := tailLinesOf chunk budget
  let omitted := lines.length - 1 - tailLines.length
  lines.headD [] ++ '\n' :: markerOf omitted ++ '\n' :: joinSep '\n' tailLines

/-- The greedy fill loop over the sorted chunks.  Whole chunks are appended
while they fit; a non-fitting chunk with effective tier ≥ 1 (and running
length still below the limit) triggers the elision branch and then the
`break`; a non-fitting chunk failing that test is skipped and the loop
continues.  The budget test `budget > 100` is over `Int`, as the JS
subtraction can go negative. -/
def fillChunks (elevatedPaths : List Str) (limit : Nat) :
    List (Str × Str) → List Str → Nat → List Str
  | [], res, _ => res
  | (path, chunk) :: rest, res, len =>
    let effectivePrio := getEffectivePriority elevatedPaths path
    let sep : Nat := if res = [] then 0 else 1
    let chunkLen := chunk.length + sep
    if len + chunkLen ≤ limit then
      fillChunks elevatedPaths limit rest (res ++ [chunk]) (len + chunkLen)
    else if len < limit ∧ 1 ≤ effectivePrio then
      if (limit : Int) - len - sep - 50 > 100 then
        res ++ [elidedChunk chunk (limit - len - sep - 50)]
      else res
    else fillChunks elevatedPaths limit rest res len

/-- Instrumented variant of `fillChunks` that also reports whether the elision
branch emitted a chunk, and with which header line and marker; its first
component coincides with `fillChunks` (proved below). -/
def fillChunksEx (elevatedPaths : List Str) (limit : Nat) :
    List (Str × Str) → List Str → Nat → List Str × Option (Str × Str)
  | [], res, _ => (res, none)
  | (path, chunk) :: rest, res, len =>
    let effectivePrio := getEffectivePriority elevatedPaths path
    let sep : Nat := if res = [] then 0 else 1
    let chunkLen := chunk.length + sep
    if len + chunkLen ≤ limit then
      fillChunksEx elevatedPaths limit rest (res ++ [chunk]) (len + chunkLen)
    else if len < limit ∧ 1 ≤ effectivePrio then
      if (limit : Int) - len - sep - 50 > 100 then
        (res ++ [elidedChunk chunk (limit - len - sep - 50)],
         some ((splitCh '\n' chunk).headD [],
               markerOf ((splitCh '\n' chunk).length - 1 -
                 (tailLinesOf chunk (limit - len - sep - 50)).length)))
      else (res, none)
    else fillChunksEx elevatedPaths limit rest res len

/-- The forward line-truncation loop of the single-chunk fallback. -/
def forwardLines (limit : Nat) : List Str → Nat → List Str
  | [], _ => []
  | l :: ls, cl =>
    if cl + l.length + 1 > limit then []
    else l :: forwardLines limit ls (cl + l.length + 1)

/-- The sorted chunk sequence visited by the fill loop. -/
def sortedChunks (elevatedPaths : List Str) (fileChunks : List (Str × Str)) :
    List (Str × Str) :=
  (insertionSort (chunkLe elevatedPaths) fileChunks.enum).map (·.2)

/-- Truncates a diff with file-aware priority, supporting elevated (tier 3)
paths. -/
def truncateDiff (diff : Str) (effectiveLimit : Nat) (elevatedPaths : List Str) :
    PreparedDiff :=
  if diff.length ≤ effectiveLimit then ⟨diff, false⟩
  else
    let fileChunks := splitDiffIntoFileChunks diff
    if fileChunks.length ≤ 1 then
      ⟨joinSep '\n' (forwardLines effectiveLimit (splitCh '\n' diff) 0), true⟩
    else
      let content := joinSep '\n'
        (fillChunks elevatedPaths effectiveLimit
          (sortedChunks elevatedPaths fileChunks) [] 0)
      ⟨if content ≠ [] then content else diff.take effectiveLimit, true⟩

/-! ## Configuration and smart-diff pipeline (`getSmartDiff`) -/

/-- The fields of `Config` read by the functions under verification.  Optional
JS fields are `Option`s; the elevation threshold (a JS float) is a rational. -/
structure Config where
  conventionalCommit : Bool := true
  includeScope : Bool := true
  includeEmoji : Bool := false
  maxSubjectLength : Nat := 72
  importCollapse : Option Bool := none
  elevationThreshold : Option ℚ := none
  elevationMinLines : Option Nat := none
deriving Repr, DecidableEq

/-- Runs the smart-diff pipeline: sanitize, per-chunk import collapse, then
truncation with dynamic priority.  An empty stat string is falsy in the
source's `stat ? ... : new Set()`. -/
def getSmartDiff (diff : Str) (stat : Option Str) (config : Config)
    (effectiveLimit : Nat) : PreparedDiff :=
  let sanitized := sanitizeDiff diff
  let elevatedPaths : List Str :=
    match stat with
    | some s =>
      if s ≠ [] then
        computeElevatedPaths s (config.elevationThreshold.getD (4/5 : ℚ))
          (config.elevationMinLines.getD 0) pathPriority
      else []
    | none => []
  let chunks := splitDiffIntoFileChunks sanitized
  let collapsedChunks :=
    chunks.map (fun pc => (pc.1, collapseImportLines pc.2 pc.1 config.importCollapse))
  let collapsedDiff :=
    if chunks = [] then sanitized else joinSep '\n' (collapsedChunks.map (·.2))
  truncateDiff collapsedDiff effectiveLimit elevatedPaths

/-- The sanitized, import-collapsed form of a diff: the exact text handed to
the truncator by `getSmartDiff`. -/
def sanitizedCollapsed (diff : Str) (config : Config) : Str :=
  let sanitized := sanitizeDiff diff
  let chunks := splitDiffIntoFileChunks sanitized
  if chunks = [] then sanitized
  else joinSep '\n'
    (chunks.map (fun pc => collapseImportLines pc.2 pc.1 config.importCollapse))

/-! ## Message parser (`parseCommitMessage`) -/

/-- The `EMOJI_MAP` constant. -/
def EMOJI_MAP : List (Str × Str) :=
  [("feat".data, "✨".data), ("fix".data, "🐛".data), ("refactor".data, "♻️".data),
   ("docs".data, "📝".data), ("style".data, "💄".data), ("test".data, "✅".data),
   ("chore".data, "🔧".data), ("perf".data, "⚡".data), ("ci".data, "👷".data),
   ("build".data, "📦".data)]

/-- Fuel-driven scan for the global multiline replace of `/^```[\w]*\n?/gm`
with the empty string: a fence opener at a line start is removed together with
its language word and the following newline, and scanning resumes at the
position after the match.  Every step consumes at least one character, so fuel
equal to the string length suffices. -/
def stripFenceOpenGo (atStart : Bool) : Nat → Str → Str
  | _, [] => []
  | 0, s => s
  | fuel + 1, '`' :: '`' :: '`' :: rest =>
    if atStart then
      match rest.drop (rest.takeWhile isWordCh).length with
      | '\n' :: r2 => stripFenceOpenGo true fuel r2
      | [] => []
      | c :: cs => stripFenceOpenGo false fuel (c :: cs)
    else '`' :: stripFenceOpenGo false fuel ('`' :: '`' :: rest)
  | fuel + 1, c :: cs => c :: stripFenceOpenGo (c = '\n') fuel cs

/-- JS `raw.replace(/^```[\w]*\n?/gm, "")`. -/
def stripFenceOpen (s : Str) : Str := stripFenceOpenGo true s.length s

/-- Fuel-driven scan for the global multiline replace of `/```$/gm` with the
empty string: three backticks immediately before a line end (or the end of the
string) are removed. -/
def stripFenceCloseGo : Nat → Str → Str
  | _, [] => []
  | 0, s => s
  | fuel + 1, '`' :: '`' :: '`' :: rest =>
    if rest = [] ∨ rest.headD ' ' = '\n' then stripFenceCloseGo fuel rest
    else '`' :: stripFenceCloseGo fuel ('`' :: '`' :: rest)
  | fuel + 1, c :: cs => c :: stripFenceCloseGo fuel cs

/-- JS `cleaned.replace(/```$/gm, "")`. -/
def stripFenceClose (s : Str) : Str := stripFenceCloseGo s.length s

/-- The cleaned raw text: fences stripped, then trimmed. -/
def cleanedOf (raw : Str) : Str := jsTrim (stripFenceClose (stripFenceOpen raw))

/-- The non-blank lines of the cleaned text
(`cleaned.split("\n").filter((line) => line.trim())`). -/
def linesOf (raw : Str) : List Str :=
  (splitCh '\n' (cleanedOf raw)).filter (fun l => jsTrim l ≠ [])

/-- The subject candidate `lines[0] || ""`. -/
def rawSubjectOf (raw : Str) : Str := (linesOf raw).headD []

/-- The body: the remaining non-blank lines joined, when any exist. -/
def bodyOf (raw : Str) : Option Str :=
  let bodyLines := ((linesOf raw).drop 1).filter (fun l => jsTrim l ≠ [])
  if bodyLines ≠ [] then some (joinSep '\n' bodyLines) else none

/-- Semantics of the conventional-commit regex
`^(\w+)(?:\(([^)]+)\))?:\s*(.+)$` applied to a single line: returns
(type, scope, description) on a match.  When everything after `:` is
whitespace, the regex backtracks `\s*` so that `(.+)` keeps the last
character. -/
def matchConventional (subject : Str) : Option (Str × Option Str × Str) :=
  let ty := subject.takeWhile isWordCh
  if ty = [] then none
  else
    let r1 := subject.drop ty.length
    let scopeRes : Option Str × Str :=
      match r1 with
      | '(' :: t =>
        let sc := t.takeWhile (fun c => c != ')')
        if sc ≠ [] ∧ sw ")" (t.drop sc.length) then (some sc, t.drop (sc.length + 1))
        else (none, r1)
      | _ => (none, r1)
    match scopeRes.2 with
    | ':' :: r3 =>
      if r3 = [] then none
      else
        let afterWs := r3.dropWhile isWs
        some (ty, scopeRes.1, if afterWs ≠ [] then afterWs else [r3.getLastD ' '])
    | _ => none

/-- The subject as assembled by the parser before length truncation, together
with the extracted type and scope. -/
def assembledSubject (raw : Str) (cfg : Config) : Str × Str × Option Str :=
  let subject0 := rawSubjectOf raw
  let parsed :=
    match matchConventional subject0 with
    | some tsd => tsd
    | none => ("chore".data, none, subject0)
  let ty := parsed.1
  let scope := parsed.2.1
  let desc := parsed.2.2
  let subject1 :=
    if cfg.conventionalCommit then
      let s2 :=
        match EMOJI_MAP.lookup ty with
        | some e => if cfg.includeEmoji ∧ e ≠ [] then e ++ ' ' :: ty else ty
        | none => ty
      let s3 :=
        match scope with
        | some sc => if cfg.includeScope ∧ sc ≠ [] then s2 ++ '(' :: sc ++ [')'] else s2
        | none => s2
      s3 ++ ':' :: ' ' :: desc
    else
      if cfg.includeEmoji then ((EMOJI_MAP.lookup "chore".data).getD []) ++ ' ' :: subject0
      else subject0
  (subject1, ty, scope)

/-- The final hard truncation
`if (subject.length > maxSubjectLength) subject.substring(0, max - 3) + "..."`;
JS `substring` clamps a negative end to 0, as `Nat` subtraction does. -/
def truncateSubject (cfg : Config) (s : Str) : Str :=
  if cfg.maxSubjectLength < s.length then s.take (cfg.maxSubjectLength - 3) ++ "...".data
  else s

/-- A parsed commit message. -/
structure GeneratedMessage where
  subject : Str
  body : Option Str
  type : Str
  scope : Option Str
  fullMessage : Str
deriving Repr, DecidableEq

/-- Parses raw model output into a structured commit message; `none` models
the thrown `Generated commit message is empty` error. -/
def parseCommitMessage (raw : Str) (cfg : Config) : Option GeneratedMessage :=
  if rawSubjectOf raw = [] then none
  else
    let asm := assembledSubject raw cfg
    let subject := truncateSubject cfg asm.1
    let body := bodyOf raw
    some { subject := subject, body := body, type := asm.2.1, scope := asm.2.2,
           fullMessage :=
             match body with
             | some b => subject ++ '\n' :: '\n' :: b
             | none => subject }

/-! ## Generation session manager (`CommitGenerator.generate`), modelled as a
transition on the generator's only mutable field `session` (the reusable
session, as an optional session id) plus a fresh-id counter.  The outcome of
the backend interaction is an oracle parameter: `ok` (the stream succeeded and
parsing succeeded), `createFail` (`createSession` threw), `runFail`
(`runWithSession` or `parseCommitMessage` threw — timeout, empty response,
transport error). -/

/-- Mutable state of a `CommitGenerator`. -/
structure GenSt where
  reusable : Option Nat := none
  nextId : Nat := 0
deriving Repr, DecidableEq

/-- Outcome oracle for one `generate` call. -/
inductive GenOutcome
  | ok
  | createFail
  | runFail
deriving Repr, DecidableEq

/-- Observable effects of one `generate` call. -/
structure GenCallLog where
  tempCreated : Bool
  tempDestroyed : Bool
  reusableDestroyed : Bool
  succeeded : Bool
deriving Repr, DecidableEq

/-- One `generate` call.  With a `modelOverride`, a disposable session is
created and destroyed in the `finally` block; on any thrown error the shared
`catch` block destroys an existing reusable session and clears the field.
Without an override, the reusable session is lazily created and reused, and
destroyed by the same `catch` on failure. -/
def generateStep (g : GenSt) (modelOverride : Option Str) (outcome : GenOutcome) :
    GenSt × GenCallLog :=
  match modelOverride with
  | some _ =>
    match outcome with
    | .createFail =>
      ({ reusable := none, nextId := g.nextId },
       ⟨false, false, g.reusable.isSome, false⟩)
    | .runFail =>
      ({ reusable := none, nextId := g.nextId + 1 },
       ⟨true, true, g.reusable.isSome, false⟩)
    | .ok =>
      ({ reusable := g.reusable, nextId := g.nextId + 1 },
       ⟨true, true, false, true⟩)
  | none =>
    match g.reusable with
    | none =>
      match outcome with
      | .createFail =>
        ({ reusable := none, nextId := g.nextId }, ⟨false, false, false, false⟩)
      | .runFail =>
        -- the lazily created reusable session is destroyed by the catch block
        ({ reusable := none, nextId := g.nextId + 1 }, ⟨false, false, true, false⟩)
      | .ok =>
        ({ reusable := some g.nextId, nextId := g.nextId + 1 },
         ⟨false, false, false, true⟩)
    | some r =>
      match outcome with
      | .ok => ({ reusable := some r, nextId := g.nextId }, ⟨false, false, false, true⟩)
      | _ =>
        -- any failure with a live reusable session destroys and clears it
        ({ reusable := none, nextId := g.nextId }, ⟨false, false, true, false⟩)

/-! ## Regeneration state machine (`Dashboard.tsx`) -/

/-- Progress phases reported by the generator. -/
inductive Phase
  | session
  | sending
  | streaming
deriving Repr, DecidableEq

/-- The dashboard's `ViewState`. -/
inductive ViewSt
  | generating
  | ready
  | regenerating
  | styleSelection
  | customInstruction
  | committing
  | cancelled
deriving Repr, DecidableEq

/-- The slice of `Config` handled by the dashboard's style selection. -/
structure DashConfig where
  verbosity : Str := "normal".data
  premiumModel : Option Str := none
deriving Repr, DecidableEq

/-- The `DEFAULT_PREMIUM_MODEL` constant. -/
def DEFAULT_PREMIUM_MODEL : Str := "sonnet-3.5".data

/-- The dashboard's React state: message, phase, view state, config, recorded
custom instruction, error, and the generation token `generationKey`. -/
structure DashState where
  message : Str := []
  fullMessage : Str := []
  phase : Phase := .session
  viewState : ViewSt := .generating
  config : DashConfig := {}
  customInstruction : Option Str := none
  error : Option Str := none
  genKey : Nat := 0
deriving Repr, DecidableEq

/-- The generation request issued by one call of `generateMessage`: the
captured token, the config, and the instruction/model arguments passed at
the call site. -/
structure GenRequest where
  key : Nat
  config : DashConfig
  instruction : Option Str
  modelOverride : Option Str
deriving Repr, DecidableEq

/-- The synchronous prelude of `generateMessage`: reset the streaming state,
bump the generation token, and capture its value in the request. -/
def startGeneration (s : DashState) (cfg : DashConfig) (instr : Option Str)
    (model : Option Str) : DashState × GenRequest :=
  ({ s with message := [], fullMessage := [], phase := .session, error := none,
            genKey := s.genKey + 1 },
   { key := s.genKey + 1, config := cfg, instruction := instr, modelOverride := model })

/-- Events driving the dashboard: the four async callbacks of a generation
(tagged with their captured token), and the user/mount actions that start or
steer generations. -/
inductive DEvent
  | initialGen (model : Option Str)
  | chunk (key : Nat) (c : Str)
  | progress (key : Nat) (p : Phase)
  | genSuccess (key : Nat) (full : Str)
  | genFailure (key : Nat) (err : Str)
  | actionRegenerate
  | styleSelect (style : Str)
  | submitCustom (instr : Str)
  | cancelCustom

/-- One transition of the dashboard; returns the new state and the generation
request issued by this event, if any.  Each async callback mutates the state
only when its captured token still equals the current `generationKey`. -/
def step (s : DashState) (e : DEvent) : DashState × Option GenRequest :=
  match e with
  | .initialGen model =>
    let r := startGeneration s s.config none model
    (r.1, some r.2)
  | .chunk k c =>
    (if k = s.genKey then { s with message := s.message ++ c } else s, none)
  | .progress k p =>
    (if k = s.genKey then
      { s with phase := p,
               viewState := if p = .streaming then .generating else s.viewState }
     else s, none)
  | .genSuccess k full =>
    (if k = s.genKey then
      { s with message := full, fullMessage := full, viewState := .ready }
     else s, none)
  | .genFailure k err =>
    (if k = s.genKey then { s with error := some err, viewState := .ready } else s, none)
  | .actionRegenerate => ({ s with viewState := .styleSelection }, none)
  | .styleSelect style =>
    if style = "custom".data then ({ s with viewState := .customInstruction }, none)
    else if style = "premium".data then
      let r := startGeneration { s with viewState := .regenerating } s.config none
        (some (s.config.premiumModel.getD DEFAULT_PREMIUM_MODEL))
      (r.1, some r.2)
    else
      let newConfig :=
        if style ≠ "same".data then { s.config with verbosity := style } else s.config
      let r := startGeneration
        { s with config := newConfig, viewState := .regenerating } newConfig
        (if style = "same".data then s.customInstruction else none) none
      (r.1, some r.2)
  | .submitCustom instr =>
    let r := startGeneration
      { s with customInstruction := some instr, viewState := .regenerating }
      s.config (some instr) none
    (r.1, some r.2)
  | .cancelCustom => ({ s with viewState := .ready }, none)

/-- Folds a trace of events over the state (discarding emitted requests). -/
def runTrace (s : DashState) (tr : List DEvent) : DashState :=
  tr.foldl (fun s e => (step s e).1) s

/-! ## Claim-side definitions: formalizations following the wording of the
specification's claims, to be compared with the source embedding. -/

/-- Fill loop as claim C6 words it: whole chunks are appended while they fit;
the first chunk that does not fit may contribute its header line, an elision
marker and trailing lines (when its effective tier is at least 1 and the
remaining budget exceeds 100 characters), and afterwards no further chunk is
ever added. -/
def fillChunksClaimC6 (elevatedPaths : List Str) (limit : Nat) :
    List (Str × Str) → List Str → Nat → List Str
  | [], res, _ => res
  | (path, chunk) :: rest, res, len =>
    let effectivePrio := getEffectivePriority elevatedPaths path
    let sep : Nat := if res = [] then 0 else 1
    let chunkLen := chunk.length + sep
    if len + chunkLen ≤ limit then
      fillChunksClaimC6 elevatedPaths limit rest (res ++ [chunk]) (len + chunkLen)
    else if 1 ≤ effectivePrio ∧ (limit : Int) - len - sep - 50 > 100 then
      res ++ [elidedChunk chunk (limit - len - sep - 50)]
    else res

/-- Multi-chunk truncation as claim C6 states it. -/
def truncateDiffClaimC6 (diff : Str) (effectiveLimit : Nat)
    (elevatedPaths : List Str) : PreparedDiff :=
  if diff.length ≤ effectiveLimit then ⟨diff, false⟩
  else
    let fileChunks := splitDiffIntoFileChunks diff
    if fileChunks.length ≤ 1 then
      ⟨joinSep '\n' (forwardLines effectiveLimit (splitCh '\n' diff) 0), true⟩
    else
      let content := joinSep '\n'
        (fillChunksClaimC6 elevatedPaths effectiveLimit
          (sortedChunks elevatedPaths fileChunks) [] 0)
      ⟨if content ≠ [] then content else diff.take effectiveLimit, true⟩

/-- One visit of the amended C6 description, as a fold with an explicit
stopped flag (`Sum.inr` = stopped, nothing is ever added afterwards): a
fitting chunk is appended; a non-fitting chunk of effective tier ≥ 1 whose
visit happens while the running length is still below the limit possibly
contributes its elided form and stops the visit; any other non-fitting chunk
is skipped and the visit continues. -/
def fillVisitC6 (elevatedPaths : List Str) (limit : Nat)
    (st : (List Str × Nat) ⊕ List Str) (pc : Str × Str) :
    (List Str × Nat) ⊕ List Str :=
  match st with
  | .inr done => .inr done
  | .inl (res, len) =>
    let effectivePrio := getEffectivePriority elevatedPaths pc.1
    let sep : Nat := if res = [] then 0 else 1
    let chunkLen := pc.2.length + sep
    if len + chunkLen ≤ limit then .inl (res ++ [pc.2], len + chunkLen)
    else if len < limit ∧ 1 ≤ effectivePrio then
      .inr (if (limit : Int) - len - sep - 50 > 100 then
              res ++ [elidedChunk pc.2 (limit - len - sep - 50)]
            else res)
    else .inl (res, len)

/-- The output of the amended C6 visiting description. -/
def fillChunksAmendedC6 (elevatedPaths : List Str) (limit : Nat)
    (chunks : List (Str × Str)) (res : List Str) (len : Nat) : List Str :=
  match chunks.foldl (fillVisitC6 elevatedPaths limit) (.inl (res, len)) with
  | .inl r => r.1
  | .inr r => r

/-- Whether (and with which header line and elision marker) the truncator's
elision branch fired, extracted from the instrumented fill. -/
def truncationInfo (diff : Str) (effectiveLimit : Nat)
    (elevatedPaths : List Str) : Option (Str × Str) :=
  if diff.length ≤ effectiveLimit then none
  else
    let fileChunks := splitDiffIntoFileChunks diff
    if fileChunks.length ≤ 1 then none
    else (fillChunksEx elevatedPaths effectiveLimit
      (sortedChunks elevatedPaths fileChunks) [] 0).2

/-- Claim-side total changed line count of a stat summary. -/
def statTotalChanged (stat : Str) : Nat :=
  ((parseStatForLineCounts stat).map (fun e => e.2.1 + e.2.2)).sum

/-- Claim-side changed line count within tier-0/1 files. -/
def statLowTierLines (stat : Str) : Nat :=
  (((parseStatForLineCounts stat).filter (fun e => pathPriority e.1 ≤ 1)).map
    (fun e => e.2.1 + e.2.2)).sum

/-- Claim-side list of all tier-0/1 paths appearing in the stat. -/
def statLowTierPaths (stat : Str) : List Str :=
  ((parseStatForLineCounts stat).filter (fun e => pathPriority e.1 ≤ 1)).map (·.1)

/-! ## Concrete inputs used by counterexamples and witnesses -/

/-- A chunk for the extensionless path `README` containing two JS-style import
lines. -/
def readmeImportChunk : Str :=
  "diff --git a/README b/README\n+import x from \"y\"\n+import z from \"w\"\n context".data

/-- A one-chunk diff with a single import line: collapsing replaces the
9-character line `+import x` by the 23-character placeholder, growing the
diff past its own length. -/
def c5diff : Str := "diff --git a/a.ts b/a.ts\n+import x".data

/-- A 67-character path used to give the second chunk of `c4diff` a long
header line. -/
def c4path : Str := "src/".data ++ List.replicate 60 'q' ++ ".ts".data

/-- The long header line of the second chunk of `c4diff` (150 characters). -/
def c4hdr : Str := "diff --git a/".data ++ c4path ++ " b/".data ++ c4path

/-- A 10-character added line. -/
def c4line : Str := "+qqqqqqqqq".data

/-- The second chunk of `c4diff`: long header plus twenty 10-character lines
(370 characters). -/
def c4chunk2 : Str := c4hdr ++ '\n' :: joinSep '\n' (List.replicate 20 c4line)

/-- A two-chunk diff (398 characters) whose second chunk is partially elided
under a 200-character budget: the kept tail lines fill the remaining budget
minus the 50-character reserve, and the unbudgeted 150-character header plus
34-character marker push the output to 335 characters. -/
def c4diff : Str := "diff --git a/a.ts b/a.ts\n+x\n".data ++ c4chunk2

/-- First chunk of `c6diff`: a 249-character tier-0 (lockfile) chunk. -/
def c6chunk1 : Str :=
  "diff --git a/package-lock.json b/package-lock.json\n".data ++
    joinSep '\n' (List.replicate 18 c4line) ++ "\n".data

/-- Second chunk of `c6diff`: a 37-character tier-0 (lockfile) chunk. -/
def c6chunk2 : Str := "diff --git a/yarn.lock b/yarn.lock\n+z".data

/-- A two-chunk diff whose first visited chunk (tier 0) does not fit a
100-character budget; the source's loop skips it and still appends the second
chunk. -/
def c6diff : Str := c6chunk1 ++ c6chunk2

/-- One stat line of the form `<path> | <N> <bar>`. -/
def statLineOf (path : Str) (n : Nat) (bar : Str) : Str :=
  path ++ " | ".data ++ natDigits n ++ " ".data ++ bar

/-- Concrete stat input for the C7 witness. -/
def w7stat : Str :=
  " src/a.ts | 5 +++--\n data.json | 100 ++++\n 2 files changed, 90 insertions(+)".data

/-- Sum of line lengths plus one separator per line; an upper bound for the
length of the newline-joined text. -/
def sumLen (xs : List Str) : Nat := (xs.map (fun l => l.length + 1)).sum

/-- Concrete parser input for the C8 witness. -/
def w8raw : Str := "fix: a very long subject line exceeding the cap".data

/-- Concrete parser configuration for the C8 witness. -/
def w8cfg : Config := { maxSubjectLength := 10 }

/-- The message the parser produces on the C8 witness input. -/
def w8msg : GeneratedMessage :=
  (parseCommitMessage w8raw w8cfg).getD ⟨[], none, [], none, []⟩

/-! ## Helper lemmas -/

theorem length_dropWhile_le (p : Char → Bool) (l : Str) :
    (l.dropWhile p).length ≤ l.length := by
  induction l with
  | nil => simp
  | cons c cs ih =>
    by_cases hc : p c = true
    · simp only [List.dropWhile, hc]
      simp only [List.length_cons]
      omega
    · simp [List.dropWhile, hc]

theorem dropWhile_eq_self_of_length (p : Char → Bool) :
    ∀ l : Str, (l.dropWhile p).length = l.length → l.dropWhile p = l := by
  intro l h
  cases l with
  | nil => rfl
  | cons c cs =>
    by_cases hc : p c = true
    · exfalso
      have h1 : (c :: cs).dropWhile p = cs.dropWhile p := by
        simp [List.dropWhile, hc]
      have h2 : (cs.dropWhile p).length ≤ cs.length := length_dropWhile_le p cs
      rw [h1] at h
      simp only [List.length_cons] at h
      omega
    · simp [List.dropWhile, hc]

theorem trimStart_of_jsTrim {l : Str} (h : jsTrim l = l) : trimStart l = l := by
  unfold trimStart
  apply dropWhile_eq_self_of_length
  have h1 : (l.dropWhile isWs).length ≤ l.length := length_dropWhile_le _ _
  have h2 : (jsTrim l).length ≤ (l.dropWhile isWs).length := by
    unfold jsTrim trimEnd trimStart
    calc ((l.dropWhile isWs).reverse.dropWhile isWs).reverse.length
        = ((l.dropWhile isWs).reverse.dropWhile isWs).length := by simp
      _ ≤ (l.dropWhile isWs).reverse.length := length_dropWhile_le _ _
      _ = (l.dropWhile isWs).length := by simp
  rw [h] at h2
  omega

theorem trimEnd_of_jsTrim {l : Str} (h : jsTrim l = l) : trimEnd l = l := by
  have h1 := trimStart_of_jsTrim h
  unfold jsTrim at h
  rw [h1] at h
  exact h

theorem headIsWs_false_of_trimStart {l : Str} (h : trimStart l = l) :
    headIsWs l = false := by
  cases l with
  | nil => rfl
  | cons c cs =>
    by_cases hc : isWs c = true
    · exfalso
      unfold trimStart at h
      simp only [List.dropWhile, hc] at h
      have := length_dropWhile_le isWs cs
      have := congrArg List.length h
      simp only [List.length_cons] at this
      omega
    · simpa [headIsWs] using hc

theorem trimStart_eq_self {l : Str} (h : headIsWs l = false) : trimStart l = l := by
  cases l with
  | nil => rfl
  | cons c cs =>
    simp only [headIsWs] at h
    simp [trimStart, List.dropWhile, h]

theorem trimStart_append {p q : Str} (hne : p ≠ []) (h : headIsWs p = false) :
    trimStart (p ++ q) = p ++ q := by
  cases p with
  | nil => exact absurd rfl hne
  | cons c cs =>
    simp only [headIsWs] at h
    simp [trimStart, List.dropWhile, h]

theorem trimEnd_eq_self {l : Str} (h : headIsWs l.reverse = false) : trimEnd l = l := by
  have h' := trimStart_eq_self h
  unfold trimStart at h'
  unfold trimEnd
  rw [h']
  simp

theorem headIsWs_reverse_false_of_trimEnd {l : Str} (h : trimEnd l = l) :
    headIsWs l.reverse = false := by
  apply headIsWs_false_of_trimStart
  unfold trimEnd at h
  have := congrArg List.reverse h
  simpa [trimStart] using this

theorem trimEnd_append {p q : Str} (hne : q ≠ []) (h : headIsWs q.reverse = false) :
    trimEnd (p ++ q) = p ++ q := by
  unfold trimEnd
  rw [List.reverse_append]
  have hstop : (q.reverse ++ p.reverse).dropWhile isWs = q.reverse ++ p.reverse := by
    cases hq : q.reverse with
    | nil =>
      exact absurd (by simpa using congrArg List.reverse hq) hne
    | cons c cs =>
      rw [hq] at h
      simp only [headIsWs] at h
      simp [List.dropWhile, h]
  rw [hstop, ← List.reverse_append]
  simp

theorem trimEnd_append_ws {p : Str} (c : Char) (h : isWs c = true) :
    trimEnd (p ++ [c]) = trimEnd p := by
  unfold trimEnd
  simp [List.dropWhile, h]

theorem splitCh_no_sep {sep : Char} : ∀ {l : Str}, ¬ sep ∈ l → splitCh sep l = [l] := by
  intro l
  induction l with
  | nil => intro _; rfl
  | cons c cs ih =>
    intro h
    have hc : ¬ c = sep := by
      intro hc; exact h (by simp [hc])
    have hcs : ¬ sep ∈ cs := fun hm => h (by simp [hm])
    simp only [splitCh, if_neg hc]
    rw [ih hcs]

theorem idxOf_append {c : Char} : ∀ {p r : Str}, ¬ c ∈ p →
    idxOf c (p ++ r) = (idxOf c r).map (· + p.length) := by
  intro p
  induction p with
  | nil =>
    intro r _
    simp
  | cons d ds ih =>
    intro r h
    have hd : ¬ d = c := by
      intro hd; exact h (by simp [hd])
    have hds : ¬ c ∈ ds := fun hm => h (by simp [hm])
    simp only [List.cons_append, idxOf, if_neg hd, List.append_eq]
    rw [ih hds]
    cases idxOf c r with
    | none => simp
    | some k =>
      simp only [Option.map_some', List.length_cons]
      exact congrArg some (by omega)

theorem takeWhile_all_append {p : Char → Bool} : ∀ {d : Str}, (∀ c ∈ d, p c = true) →
    ∀ r : Str, (d ++ r).takeWhile p = d ++ r.takeWhile p := by
  intro d
  induction d with
  | nil => intro _ r; simp
  | cons c cs ih =>
    intro h r
    have hc : p c = true := h c (by simp)
    have hcs : ∀ x ∈ cs, p x = true := fun x hx => h x (by simp [hx])
    simp [List.takeWhile, hc, ih hcs]

theorem dropWhile_all_append {p : Char → Bool} : ∀ {d : Str}, (∀ c ∈ d, p c = true) →
    ∀ r : Str, (d ++ r).dropWhile p = r.dropWhile p := by
  intro d
  induction d with
  | nil => intro _ r; simp
  | cons c cs ih =>
    intro h r
    have hc : p c = true := h c (by simp)
    have hcs : ∀ x ∈ cs, p x = true := fun x hx => h x (by simp [hx])
    simp [List.dropWhile, hc, ih hcs]

theorem takeWhile_cons_neg {p : Char → Bool} {c : Char} (h : p c = false) (l : Str) :
    (c :: l).takeWhile p = [] := by
  simp [List.takeWhile, h]

/-- Characters produced by `natDigits` are decimal digits; in particular they
are not whitespace, `\n` or `|`. -/
theorem digitChar_ok {m : Nat} (h : m < 10) :
    (Char.ofNat (48 + m)).isDigit = true ∧ isWs (Char.ofNat (48 + m)) = false ∧
      Char.ofNat (48 + m) ≠ '\n' ∧ Char.ofNat (48 + m) ≠ '|' ∧
      (Char.ofNat (48 + m)).toNat = 48 + m := by
  match m, h with
  | 0, _ => exact (by decide)
  | 1, _ => exact (by decide)
  | 2, _ => exact (by decide)
  | 3, _ => exact (by decide)
  | 4, _ => exact (by decide)
  | 5, _ => exact (by decide)
  | 6, _ => exact (by decide)
  | 7, _ => exact (by decide)
  | 8, _ => exact (by decide)
  | 9, _ => exact (by decide)

theorem natDigitsGo_ok : ∀ (fuel n : Nat), n < fuel → ∀ c ∈ natDigitsGo fuel n,
    c.isDigit = true ∧ isWs c = false ∧ c ≠ '\n' ∧ c ≠ '|' := by
  intro fuel
  induction fuel with
  | zero => intro n h; omega
  | succ fuel ih =>
    intro n h c hc
    simp only [natDigitsGo] at hc
    by_cases h10 : n < 10
    · rw [if_pos h10] at hc
      simp only [List.mem_singleton] at hc
      subst hc
      exact ⟨(digitChar_ok h10).1, (digitChar_ok h10).2.1, (digitChar_ok h10).2.2.1,
        (digitChar_ok h10).2.2.2.1⟩
    · rw [if_neg h10] at hc
      rw [List.mem_append] at hc
      rcases hc with hc | hc
      · have hdiv : n / 10 < n := Nat.div_lt_self (by omega) (by omega)
        exact ih (n / 10) (by omega) c hc
      · simp only [List.mem_singleton] at hc
        subst hc
        have hm : n % 10 < 10 := Nat.mod_lt _ (by omega)
        exact ⟨(digitChar_ok hm).1, (digitChar_ok hm).2.1, (digitChar_ok hm).2.2.1,
          (digitChar_ok hm).2.2.2.1⟩

theorem natDigits_ok (n : Nat) : ∀ c ∈ natDigits n,
    c.isDigit = true ∧ isWs c = false ∧ c ≠ '\n' ∧ c ≠ '|' :=
  natDigitsGo_ok (n + 1) n (Nat.lt_succ_self n)

theorem natDigits_ne_nil (n : Nat) : natDigits n ≠ [] := by
  unfold natDigits natDigitsGo
  by_cases h : n < 10
  · rw [if_pos h]; simp
  · rw [if_neg h]; simp

theorem natOfDigits_append (xs : Str) (c : Char) :
    natOfDigits (xs ++ [c]) = 10 * natOfDigits xs + (c.toNat - 48) := by
  unfold natOfDigits
  rw [List.foldl_append]
  rfl

theorem natOfDigits_natDigitsGo : ∀ (fuel n : Nat), n < fuel →
    natOfDigits (natDigitsGo fuel n) = n := by
  intro fuel
  induction fuel with
  | zero => intro n h; omega
  | succ fuel ih =>
    intro n h
    simp only [natDigitsGo]
    by_cases h10 : n < 10
    · rw [if_pos h10]
      have := (digitChar_ok h10).2.2.2.2
      unfold natOfDigits
      simp only [List.foldl_cons, List.foldl_nil]
      omega
    · rw [if_neg h10]
      have hdiv : n / 10 < n := Nat.div_lt_self (by omega) (by omega)
      rw [natOfDigits_append, ih (n / 10) (by omega)]
      have hm : n % 10 < 10 := Nat.mod_lt _ (by omega)
      have := (digitChar_ok hm).2.2.2.2
      omega

theorem natOfDigits_natDigits (n : Nat) : natOfDigits (natDigits n) = n :=
  natOfDigits_natDigitsGo (n + 1) n (Nat.lt_succ_self n)

theorem joinSep_append_last (s : Char) (res : List Str) (c : Str) :
    joinSep s (res ++ [c]) = if res = [] then c else joinSep s res ++ s :: c := by
  induction res with
  | nil => simp [joinSep]
  | cons x rest ih =>
    cases rest with
    | nil => simp [joinSep]
    | cons y ys =>
      simp only [List.cons_append, joinSep, List.append_eq] at ih ⊢
      rw [ih]
      simp [joinSep, List.append_assoc]

theorem length_joinSep_append_last (s : Char) (res : List Str) (c : Str) :
    (joinSep s (res ++ [c])).length =
      (joinSep s res).length + (if res = [] then 0 else 1) + c.length := by
  rw [joinSep_append_last]
  by_cases h : res = []
  · simp [h, joinSep]
  · simp [h]
    omega

theorem length_joinSep_le_sumLen (s : Char) : ∀ xs : List Str,
    (joinSep s xs).length ≤ sumLen xs := by
  intro xs
  induction xs with
  | nil => simp [joinSep, sumLen]
  | cons x rest ih =>
    cases rest with
    | nil => simp [joinSep, sumLen]
    | cons y ys =>
      simp only [joinSep, sumLen, List.map_cons, List.sum_cons,
        List.length_append, List.length_cons] at ih ⊢
      omega

theorem sumLen_takeTailGo (budget : Nat) : ∀ (ls : List Str) (tl : Nat) (acc : List Str),
    tl ≤ budget → sumLen (takeTailGo budget ls tl acc) + tl ≤ budget + sumLen acc := by
  intro ls
  induction ls with
  | nil => intro tl acc h; simp [takeTailGo]; omega
  | cons l rest ih =>
    intro tl acc h
    by_cases hl : tl + l.length + 1 > budget
    · simp only [takeTailGo, if_pos hl]
      omega
    · simp only [takeTailGo, if_neg hl]
      have := ih (tl + l.length + 1) (l :: acc) (by omega)
      simp only [sumLen, List.map_cons, List.sum_cons] at this ⊢
      omega

theorem sumLen_tailLinesOf (chunk : Str) (budget : Nat) :
    sumLen (tailLinesOf chunk budget) ≤ budget := by
  have := sumLen_takeTailGo budget (splitCh '\n' chunk).reverse 0 [] (by omega)
  simp only [sumLen, List.map_nil, List.sum_nil] at this
  unfold tailLinesOf
  simp only [sumLen] at this ⊢
  omega

theorem length_elidedChunk_eq (chunk : Str) (budget : Nat) :
    (elidedChunk chunk budget).length =
      ((splitCh '\n' chunk).headD []).length +
      (markerOf ((splitCh '\n' chunk).length - 1 - (tailLinesOf chunk budget).length)).length +
      2 + (joinSep '\n' (tailLinesOf chunk budget)).length := by
  unfold elidedChunk
  simp only [List.length_append, List.length_cons]
  omega

theorem sumLen_forwardLines (limit : Nat) : ∀ (ls : List Str) (cl : Nat),
    cl ≤ limit → sumLen (forwardLines limit ls cl) + cl ≤ limit := by
  intro ls
  induction ls with
  | nil => intro cl h; simp [forwardLines, sumLen]; omega
  | cons l rest ih =>
    intro cl h
    by_cases hl : cl + l.length + 1 > limit
    · simp only [forwardLines, if_pos hl]
      simp [sumLen]
      omega
    · simp only [forwardLines, if_neg hl]
      have := ih (cl + l.length + 1) (by omega)
      simp only [sumLen, List.map_cons, List.sum_cons] at this ⊢
      omega

theorem fillChunksEx_fst (elev : List Str) (limit : Nat) : ∀ (chunks : List (Str × Str))
    (res : List Str) (len : Nat),
    (fillChunksEx elev limit chunks res len).1 = fillChunks elev limit chunks res len := by
  intro chunks
  induction chunks with
  | nil => intro res len; rfl
  | cons pc rest ih =>
    intro res len
    obtain ⟨path, chunk⟩ := pc
    simp only [fillChunksEx, fillChunks]
    generalize (if res = [] then (0 : Nat) else 1) = sep
    split
    · exact ih _ _
    · split
      · split
        · rfl
        · rfl
      · exact ih _ _

theorem fillChunksEx_bound (elev : List Str) (limit : Nat) :
    ∀ (chunks : List (Str × Str)) (res : List Str) (len : Nat),
    len = (joinSep '\n' res).length → len ≤ limit →
    ((fillChunksEx elev limit chunks res len).2 = none →
      (joinSep '\n' (fillChunksEx elev limit chunks res len).1).length ≤ limit) ∧
    (∀ hdr mk, (fillChunksEx elev limit chunks res len).2 = some (hdr, mk) →
      (joinSep '\n' (fillChunksEx elev limit chunks res len).1).length + 48 ≤
        limit + hdr.length + mk.length ∧
      1 ≤ (joinSep '\n' (fillChunksEx elev limit chunks res len).1).length) := by
  intro chunks
  induction chunks with
  | nil =>
    intro res len hlen hle
    refine ⟨fun _ => ?_, fun hdr mk h => ?_⟩
    · simp only [fillChunksEx]
      omega
    · simp only [fillChunksEx] at h
      exact absurd h (by simp)
  | cons pc rest ih =>
    intro res len hlen hle
    obtain ⟨path, chunk⟩ := pc
    simp only [fillChunksEx]
    generalize hsep : (if res = [] then (0 : Nat) else 1) = sep
    split
    · next h1 =>
      apply ih
      · have hja := length_joinSep_append_last '\n' res chunk
        rw [hsep] at hja
        omega
      · exact h1
    · next h1 =>
      split
      · next h2 =>
        split
        · next h3 =>
          refine ⟨fun h => by simp at h, fun hdr mk h => ?_⟩
          have h' : (((splitCh '\n' chunk).headD [],
              markerOf ((splitCh '\n' chunk).length - 1 -
                (tailLinesOf chunk (limit - len - sep - 50)).length)) : Str × Str) =
              (hdr, mk) := Option.some.inj h
          obtain ⟨hhdr, hmk⟩ := Prod.mk.inj h'
          subst hhdr hmk
          have harith : len + sep + 150 < limit := by omega
          have hec := length_elidedChunk_eq chunk (limit - len - sep - 50)
          have htail := sumLen_tailLinesOf chunk (limit - len - sep - 50)
          have hjt := length_joinSep_le_sumLen '\n'
            (tailLinesOf chunk (limit - len - sep - 50))
          have hja := length_joinSep_append_last '\n' res
            (elidedChunk chunk (limit - len - sep - 50))
          rw [hsep] at hja
          constructor
          · rw [hja]
            omega
          · rw [hja]
            omega
        · next h3 =>
          refine ⟨fun _ => ?_, fun hdr mk h => absurd h (by simp)⟩
          show (joinSep '\n' res).length ≤ limit
          omega
      · next h2 =>
        exact ih res len hlen hle

theorem foldl_fillVisit_inr (elev : List Str) (limit : Nat) :
    ∀ (rest : List (Str × Str)) (r : List Str),
    rest.foldl (fillVisitC6 elev limit) (.inr r) = .inr r := by
  intro rest
  induction rest with
  | nil => intro r; rfl
  | cons pc rs ih =>
    intro r
    simp only [List.foldl_cons]
    rw [show fillVisitC6 elev limit (.inr r) pc = .inr r from rfl]
    exact ih r

theorem truncateDiff_of_fits {diff : Str} {limit : Nat} {elev : List Str}
    (h : diff.length ≤ limit) : truncateDiff diff limit elev = ⟨diff, false⟩ := by
  simp [truncateDiff, h]

theorem truncateDiff_wasTruncated_of_over {diff : Str} {limit : Nat} {elev : List Str}
    (h : ¬ diff.length ≤ limit) : (truncateDiff diff limit elev).wasTruncated = true := by
  unfold truncateDiff
  rw [if_neg h]
  dsimp only
  split <;> rfl

theorem getSmartDiff_eq_truncate (diff : Str) (stat : Option Str) (config : Config)
    (lim : Nat) :
    getSmartDiff diff stat config lim =
      truncateDiff (sanitizedCollapsed diff config) lim
        (match stat with
         | some s =>
           if s ≠ [] then
             computeElevatedPaths s (config.elevationThreshold.getD (4/5 : ℚ))
               (config.elevationMinLines.getD 0) pathPriority
           else []
         | none => []) := by
  unfold getSmartDiff sanitizedCollapsed
  simp only [List.map_map]
  rfl

theorem foldl_counts_sum : ∀ (l : List (Str × Nat × Nat)) (a : Nat),
    l.foldl (fun a e => a + e.2.1 + e.2.2) a = a + (l.map (fun e => e.2.1 + e.2.2)).sum := by
  intro l
  induction l with
  | nil => intro a; simp
  | cons e rest ih =>
    intro a
    simp only [List.foldl_cons, List.map_cons, List.sum_cons, ih]
    omega

theorem foldl_low_counts_sum (p : Str → Nat) : ∀ (l : List (Str × Nat × Nat)) (a : Nat),
    l.foldl (fun a e => if p e.1 ≤ 1 then a + e.2.1 + e.2.2 else a) a =
      a + ((l.filter (fun e => p e.1 ≤ 1)).map (fun e => e.2.1 + e.2.2)).sum := by
  intro l
  induction l with
  | nil => intro a; simp
  | cons e rest ih =>
    intro a
    by_cases he : p e.1 ≤ 1
    · simp [List.filter_cons, he, ih]
      omega
    · simp [List.filter_cons, he, ih]

theorem sum_filter_le (p : Str × Nat × Nat → Bool) : ∀ (l : List (Str × Nat × Nat)),
    ((l.filter p).map (fun e => e.2.1 + e.2.2)).sum ≤
      (l.map (fun e => e.2.1 + e.2.2)).sum := by
  intro l
  induction l with
  | nil => simp
  | cons e rest ih =>
    rw [List.filter_cons]
    by_cases he : p e = true
    · rw [if_pos he]
      simp only [List.map_cons, List.sum_cons]
      omega
    · rw [if_neg he]
      simp only [List.map_cons, List.sum_cons]
      omega

theorem mem_of_mem_jsTrim {c : Char} {s : Str} (h : c ∈ jsTrim s) : c ∈ s := by
  unfold jsTrim trimEnd trimStart at h
  have h1 := (List.dropWhile_sublist (p := isWs)
    (l := (s.dropWhile isWs).reverse)).subset
  have h2 := (List.dropWhile_sublist (p := isWs) (l := s)).subset
  rw [List.mem_reverse] at h
  have := h1 h
  rw [List.mem_reverse] at this
  exact h2 this

theorem headIsWs_reverse_of_all {q : Str} (hall : ∀ c ∈ q, isWs c = false)
    (hne : q ≠ []) : headIsWs q.reverse = false := by
  cases hq : q.reverse with
  | nil =>
    exact absurd (by simpa using congrArg List.reverse hq) hne
  | cons c cs =>
    have : c ∈ q := by
      rw [← List.mem_reverse, hq]
      simp
    simp [headIsWs, hall c this]

theorem headIsWs_of_all {q : Str} (hall : ∀ c ∈ q, isWs c = false) :
    headIsWs q = false := by
  cases q with
  | nil => rfl
  | cons c cs => simp [headIsWs, hall c (by simp)]

theorem headIsWs_append_left {q r : Str} (hne : q ≠ []) (h : headIsWs q = false) :
    headIsWs (q ++ r) = false := by
  cases q with
  | nil => exact absurd rfl hne
  | cons c cs => simpa [headIsWs] using h

theorem trimStart_cons_ws {c : Char} (h : isWs c = true) (l : Str) :
    trimStart (c :: l) = trimStart l := by
  simp [trimStart, List.dropWhile, h]

theorem fillChunks_eq_amendedC6 (elev : List Str) (limit : Nat) :
    ∀ (chunks : List (Str × Str)) (res : List Str) (len : Nat),
    fillChunks elev limit chunks res len = fillChunksAmendedC6 elev limit chunks res len := by
  intro chunks
  induction chunks with
  | nil => intro res len; rfl
  | cons pc rest ih =>
    intro res len
    obtain ⟨path, chunk⟩ := pc
    simp only [fillChunks, fillChunksAmendedC6, List.foldl_cons, fillVisitC6]
    generalize (if res = [] then (0 : Nat) else 1) = sep
    split
    · exact ih _ _
    · split
      · rw [foldl_fillVisit_inr]
      · exact ih _ _

theorem step_genKey_mono (s : DashState) (e : DEvent) :
    s.genKey ≤ ((step s e).1).genKey := by
  cases e <;> simp only [step, startGeneration] <;> (repeat' split) <;> simp

theorem runTrace_genKey_mono (s : DashState) (tr : List DEvent) :
    s.genKey ≤ (runTrace s tr).genKey := by
  induction tr generalizing s with
  | nil => exact Nat.le_refl _
  | cons e rest ih =>
    calc s.genKey ≤ ((step s e).1).genKey := step_genKey_mono s e
      _ ≤ (runTrace (step s e).1 rest).genKey := ih _
      _ = (runTrace s (e :: rest)).genKey := rfl

theorem step_stale_handlers (s : DashState) (k : Nat) (hk : k ≠ s.genKey) :
    (∀ c, (step s (.chunk k c)).1 = s) ∧
    (∀ p, (step s (.progress k p)).1 = s) ∧
    (∀ r, (step s (.genSuccess k r)).1 = s) ∧
    (∀ err, (step s (.genFailure k err)).1 = s) := by
  refine ⟨fun c => ?_, fun p => ?_, fun r => ?_, fun err => ?_⟩ <;> simp [step, hk]

/-- Claim C1 (confirmed): every start of a generation increments the
monotonically increasing generation token and captures its value in the
request; no event ever decreases the token; each of the four async handlers
(onChunk, onProgress, success, failure) leaves the state unchanged when its
captured token differs from the current one; consequently, once a later
generation B has started (so the current token exceeds A's captured token
`kA`), the completion handlers of the earlier generation A never alter the
state, whatever events happen in between. -/
theorem c1_stale_result_suppression :
    (∀ (s : DashState) (cfg : DashConfig) (instr model : Option Str),
      (startGeneration s cfg instr model).1.genKey = s.genKey + 1 ∧
      (startGeneration s cfg instr model).2.key = s.genKey + 1) ∧
    (∀ (s : DashState) (e : DEvent), s.genKey ≤ ((step s e).1).genKey) ∧
    (∀ (s : DashState) (k : Nat), k ≠ s.genKey →
      (∀ c, (step s (.chunk k c)).1 = s) ∧
      (∀ p, (step s (.progress k p)).1 = s) ∧
      (∀ r, (step s (.genSuccess k r)).1 = s) ∧
      (∀ err, (step s (.genFailure k err)).1 = s)) ∧
    (∀ (s1 : DashState) (kA : Nat) (tr : List DEvent), kA < s1.genKey →
      (∀ c, (step (runTrace s1 tr) (.chunk kA c)).1 = runTrace s1 tr) ∧
      (∀ p, (step (runTrace s1 tr) (.progress kA p)).1 = runTrace s1 tr) ∧
      (∀ r, (step (runTrace s1 tr) (.genSuccess kA r)).1 = runTrace s1 tr) ∧
      (∀ err, (step (runTrace s1 tr) (.genFailure kA err)).1 = runTrace s1 tr)) := by
  refine ⟨fun s cfg instr model => ⟨rfl, rfl⟩, step_genKey_mono, step_stale_handlers,
    fun s1 kA tr h => ?_⟩
  have hmono := runTrace_genKey_mono s1 tr
  exact step_stale_handlers (runTrace s1 tr) kA (by omega)

/-- Witness for C1 at a concrete state and trace: token 3 is stale once the
current token is 5, so a late success callback is a no-op. -/
theorem c1_stale_result_suppression_witness :
    (step (runTrace { genKey := 5 } [DEvent.actionRegenerate]) (.genSuccess 3 "m".data)).1 =
      runTrace { genKey := 5 } [DEvent.actionRegenerate] :=
  (c1_stale_result_suppression.2.2.2 { genKey := 5 } 3 [DEvent.actionRegenerate]
    (by decide)).2.2.1 "m".data

/-- Claim C2 as stated is false: when an override generation fails, the
shared catch block destroys and clears an existing reusable session. -/
theorem c2_counterexample :
    (generateStep { reusable := some 0, nextId := 1 } (some "premium".data)
      GenOutcome.runFail).1.reusable ≠ some 0 := by decide

/-- Claim C2 (amended): an override generation uses only a disposable session
and never creates or replaces the reusable one; on the success path the
reusable session field is left unchanged and the disposable session is
created and destroyed within the call; on a failure path, however, an
existing reusable session is destroyed and the field cleared (the
generator's uniform failure cleanup). -/
theorem c2_override_session_frame (g : GenSt) (m : Str) (outcome : GenOutcome) :
    ((generateStep g (some m) outcome).1.reusable = g.reusable ∨
      (generateStep g (some m) outcome).1.reusable = none) ∧
    (outcome = .ok →
      (generateStep g (some m) outcome).1.reusable = g.reusable ∧
      (generateStep g (some m) outcome).2.tempCreated = true ∧
      (generateStep g (some m) outcome).2.tempDestroyed = true ∧
      (generateStep g (some m) outcome).2.reusableDestroyed = false) ∧
    (outcome ≠ .ok →
      (generateStep g (some m) outcome).1.reusable = none ∧
      (generateStep g (some m) outcome).2.reusableDestroyed = g.reusable.isSome) := by
  cases outcome <;> simp [generateStep]

/-- Witness for C2 (amended) at a concrete generator state: a successful
override call leaves the reusable session `some 5` untouched. -/
theorem c2_override_session_frame_witness :
    (generateStep { reusable := some 5, nextId := 6 } (some "m".data)
      GenOutcome.ok).1.reusable = some 5 :=
  ((c2_override_session_frame { reusable := some 5, nextId := 6 } "m".data .ok).2.1 rfl).1

/-- Claim C3 is a code bug: the function's own documentation (and the spec)
says an unrecognized or missing extension falls back to a never-matching
language, but the code returns `"js"`, whose import predicate does match, so
an extensionless file's import run is collapsed. -/
theorem c3_unknown_language_fallback :
    getLanguageFromPath "README".data = "js".data ∧
    collapseImportLines readmeImportChunk "README".data none ≠ readmeImportChunk := by
  decide

/-- Claim C9 as stated is false: after submitting the custom instruction `X`
and then choosing the non-custom style `detailed`, the recorded custom
instruction is not cleared, so a subsequent `same` selection still starts
its regeneration with instruction `X` instead of none. -/
theorem c9_counterexample :
    ((step (runTrace { viewState := ViewSt.ready, genKey := 1 }
        [DEvent.submitCustom "X".data, DEvent.genSuccess 2 "m".data,
         DEvent.actionRegenerate, DEvent.styleSelect "detailed".data])
      (.styleSelect "same".data)).2.map GenRequest.instruction) = some (some "X".data) ∧
    ((step (runTrace { viewState := ViewSt.ready, genKey := 1 }
        [DEvent.submitCustom "X".data, DEvent.genSuccess 2 "m".data,
         DEvent.actionRegenerate, DEvent.styleSelect "detailed".data])
      (.styleSelect "same".data)).2.map GenRequest.instruction) ≠ some none := by
  decide

/-- Claim C9 (amended): choosing `same` starts a regeneration carrying the
last recorded custom instruction; any other non-custom style starts its
regeneration without an instruction but leaves the recorded instruction in
place (it is never cleared), so a later `same` still replays it. -/
theorem c9_style_selection (s : DashState) (style : Str) (hc : style ≠ "custom".data) :
    (step s (.styleSelect style)).1.customInstruction = s.customInstruction ∧
    (step s (.styleSelect style)).2.map GenRequest.instruction =
      some (if style = "same".data then s.customInstruction else none) := by
  by_cases hp : style = "premium".data
  · subst hp
    simp [step, startGeneration]
  · by_cases hs : style = "same".data
    · subst hs
      simp [step, startGeneration]
    · simp [step, startGeneration, hc, hp, hs]

/-- Witness for C9 (amended) at a concrete state: choosing `detailed` keeps
the recorded instruction `X` and starts a generation without one. -/
theorem c9_style_selection_witness :
    (step { customInstruction := some "X".data, viewState := ViewSt.styleSelection }
        (.styleSelect "detailed".data)).1.customInstruction = some "X".data ∧
    (step { customInstruction := some "X".data, viewState := ViewSt.styleSelection }
        (.styleSelect "detailed".data)).2.map GenRequest.instruction =
      some (if "detailed".data = "same".data then some "X".data else none) :=
  c9_style_selection
    { customInstruction := some "X".data, viewState := ViewSt.styleSelection }
    "detailed".data (by decide)

/-- Claim C8 as stated is false: with `maxSubjectLength = 2` the truncation
`substring(0, max - 3) + "..."` produces the 3-character subject `...`,
exceeding the configured maximum. -/
theorem c8_counterexample :
    (parseCommitMessage "abcd".data
        { conventionalCommit := false, includeEmoji := false, maxSubjectLength := 2 }).map
      (fun m => m.subject) = some "...".data ∧
    ¬ (("...".data : Str).length ≤ 2) := by decide

/-- Claim C8 (amended): provided `maxSubjectLength ≥ 3`, every parsed
subject satisfies `subject.length ≤ maxSubjectLength`, and whenever the
assembled subject would exceed the maximum it is cut to exactly
`maxSubjectLength` characters ending with an ellipsis. -/
theorem c8_subject_truncation (raw : Str) (cfg : Config)
    (h3 : 3 ≤ cfg.maxSubjectLength) (m : GeneratedMessage)
    (hm : parseCommitMessage raw cfg = some m) :
    m.subject.length ≤ cfg.maxSubjectLength ∧
    (cfg.maxSubjectLength < (assembledSubject raw cfg).1.length →
      m.subject.length = cfg.maxSubjectLength ∧
      List.IsSuffix "...".data m.subject) := by
  have hsub : m.subject = truncateSubject cfg (assembledSubject raw cfg).1 := by
    unfold parseCommitMessage at hm
    by_cases h0 : rawSubjectOf raw = []
    · rw [if_pos h0] at hm
      exact absurd hm (by simp)
    · rw [if_neg h0] at hm
      have := Option.some.inj hm
      rw [← this]
  rw [hsub]
  unfold truncateSubject
  by_cases hover : cfg.maxSubjectLength < (assembledSubject raw cfg).1.length
  · rw [if_pos hover]
    have hmin : ((assembledSubject raw cfg).1.take (cfg.maxSubjectLength - 3)).length =
        cfg.maxSubjectLength - 3 := by
      rw [List.length_take]
      omega
    have hlen : ((assembledSubject raw cfg).1.take (cfg.maxSubjectLength - 3) ++
        "...".data).length = cfg.maxSubjectLength := by
      rw [List.length_append, hmin]
      simp
      omega
    exact ⟨by omega, fun _ => ⟨hlen,
      ⟨(assembledSubject raw cfg).1.take (cfg.maxSubjectLength - 3), rfl⟩⟩⟩
  · rw [if_neg hover]
    exact ⟨by omega, fun hc => absurd hc hover⟩

/-- Witness for C8 (amended) on a concrete over-long subject with
`maxSubjectLength = 10`. -/
theorem c8_subject_truncation_witness :
    parseCommitMessage w8raw w8cfg = some w8msg ∧
    w8msg.subject.length ≤ w8cfg.maxSubjectLength :=
  ⟨by decide, (c8_subject_truncation w8raw w8cfg (by decide) w8msg (by decide)).1⟩

/-- Claim C5 as stated is false: this 34-character diff is within the
34-character limit, but import collapsing grows it to 48 characters, so the
pipeline truncates it and reports `wasTruncated = true`. -/
theorem c5_counterexample :
    c5diff.length ≤ 34 ∧ (getSmartDiff c5diff none {} 34).wasTruncated = true := by
  decide

/-- Claim C5 (amended): `wasTruncated` is false exactly when the sanitized,
import-collapsed diff fits the effective limit, and in that case the returned
content equals that sanitized, import-collapsed diff (the length test is
against the collapsed form, not the input diff). -/
theorem c5_smart_diff (diff : Str) (stat : Option Str) (cfg : Config) (lim : Nat) :
    ((getSmartDiff diff stat cfg lim).wasTruncated = false ↔
      (sanitizedCollapsed diff cfg).length ≤ lim) ∧
    ((sanitizedCollapsed diff cfg).length ≤ lim →
      (getSmartDiff diff stat cfg lim).content = sanitizedCollapsed diff cfg) := by
  rw [getSmartDiff_eq_truncate]
  constructor
  · by_cases h : (sanitizedCollapsed diff cfg).length ≤ lim
    · rw [truncateDiff_of_fits h]
      simp [h]
    · rw [show ((truncateDiff (sanitizedCollapsed diff cfg) lim _).wasTruncated) = true from
        truncateDiff_wasTruncated_of_over h]
      simp [h]
  · intro h
    rw [truncateDiff_of_fits h]

/-- Witness for C5 (amended) at a concrete fitting diff. -/
theorem c5_smart_diff_witness :
    (sanitizedCollapsed "diff --git a/a.ts b/a.ts\n+x".data {}).length ≤ 100 ∧
    (getSmartDiff "diff --git a/a.ts b/a.ts\n+x".data none {} 100).content =
      sanitizedCollapsed "diff --git a/a.ts b/a.ts\n+x".data {} :=
  ⟨by decide, (c5_smart_diff "diff --git a/a.ts b/a.ts\n+x".data none {} 100).2 (by decide)⟩

/-- Claim C6 as stated is false: on this two-chunk diff the first visited
chunk (a tier-0 lockfile chunk) does not fit, yet the loop does not stop —
the second chunk is still appended, unlike the claim's
first-non-fitting-chunk-stops rule. -/
theorem c6_counterexample :
    truncateDiff c6diff 100 [] ≠ truncateDiffClaimC6 c6diff 100 [] ∧
    (truncateDiff c6diff 100 []).content = c6chunk2 := by decide

/-- Claim C6 (amended): in multi-chunk truncation the chunks are visited in
sorted order (effective tier descending, original order ascending); whole
chunks are appended while they fit; a non-fitting chunk whose effective tier
is at least 1, visited while the running length is below the limit, possibly
contributes its header line, elision marker and trailing lines (when the
remaining budget exceeds 100 characters) and stops the visit — no further
chunk is ever added after it; but a non-fitting chunk of effective tier 0
(or one visited with the running length already at the limit) is skipped and
the visit continues, so later chunks can still be appended. -/
theorem c6_visit_order (diff : Str) (lim : Nat) (elev : List Str)
    (h0 : ¬ diff.length ≤ lim) (h1 : ¬ (splitDiffIntoFileChunks diff).length ≤ 1) :
    truncateDiff diff lim elev =
      ⟨(let content := joinSep '\n'
          (fillChunksAmendedC6 elev lim
            (sortedChunks elev (splitDiffIntoFileChunks diff)) [] 0)
        if content ≠ [] then content else diff.take lim), true⟩ := by
  unfold truncateDiff
  rw [if_neg h0]
  dsimp only
  rw [if_neg h1, fillChunks_eq_amendedC6]

/-- Witness for C6 (amended) at the concrete two-chunk diff. -/
theorem c6_visit_order_witness :
    truncateDiff c6diff 100 [] =
      ⟨(let content := joinSep '\n'
          (fillChunksAmendedC6 [] 100
            (sortedChunks [] (splitDiffIntoFileChunks c6diff)) [] 0)
        if content ≠ [] then content else c6diff.take 100), true⟩ :=
  c6_visit_order c6diff 100 [] (by decide) (by decide)

/-- Claim C4 as stated is false: in the multi-chunk case the output with a
partially elided chunk can exceed the budget — on this two-chunk diff with a
200-character budget the output has 335 characters, because the elided
chunk's header line and marker are not counted against the budget. -/
theorem c4_counterexample :
    2 ≤ (splitDiffIntoFileChunks c4diff).length ∧
    200 < (truncateDiff c4diff 200 []).content.length := by decide

/-- Claim C4 (amended): the truncator's output is within the budget whenever
no partially elided chunk is emitted (in particular the single-chunk forward
fallback and whole-chunk accumulation always fit); when a chunk is partially
elided, its kept tail lines fit within the remaining budget minus the
50-character reserve, but its header line and elision marker are unbudgeted,
so the output length is only bounded by
`budget + header.length + marker.length - 48`. -/
theorem c4_truncation_budget (diff : Str) (lim : Nat) (elev : List Str) :
    (truncationInfo diff lim elev = none →
      (truncateDiff diff lim elev).content.length ≤ lim) ∧
    (∀ hdr mk, truncationInfo diff lim elev = some (hdr, mk) →
      (truncateDiff diff lim elev).content.length + 48 ≤ lim + hdr.length + mk.length) := by
  unfold truncationInfo truncateDiff
  by_cases h0 : diff.length ≤ lim
  · simp only [if_pos h0]
    exact ⟨fun _ => h0, fun hdr mk h => absurd h (by simp)⟩
  · simp only [if_neg h0]
    by_cases h1 : (splitDiffIntoFileChunks diff).length ≤ 1
    · simp only [if_pos h1]
      refine ⟨fun _ => ?_, fun hdr mk h => absurd h (by simp)⟩
      have h2 := sumLen_forwardLines lim (splitCh '\n' diff) 0 (by omega)
      have h3 := length_joinSep_le_sumLen '\n' (forwardLines lim (splitCh '\n' diff) 0)
      show (joinSep '\n' (forwardLines lim (splitCh '\n' diff) 0)).length ≤ lim
      omega
    · simp only [if_neg h1]
      have hfst := fillChunksEx_fst elev lim
        (sortedChunks elev (splitDiffIntoFileChunks diff)) [] 0
      have hb := fillChunksEx_bound elev lim
        (sortedChunks elev (splitDiffIntoFileChunks diff)) [] 0 (by simp [joinSep]) (by omega)
      rw [← hfst]
      constructor
      · intro hnone
        have hc := hb.1 hnone
        split
        · exact hc
        · rw [List.length_take]
          omega
      · intro hdr mk hsome
        have hc := (hb.2 hdr mk hsome).1
        have hne := (hb.2 hdr mk hsome).2
        split
        · exact hc
        · next hcontr =>
          exfalso
          apply hcontr
          intro hnil
          rw [hnil] at hne
          simp at hne

/-- Witness for C4 (amended) at the concrete two-chunk diff: the elision
branch fired with the 150-character header and the marker for 9 omitted
lines, and the output length satisfies the amended bound. -/
theorem c4_truncation_budget_witness :
    truncationInfo c4diff 200 [] = some (c4hdr, markerOf 9) ∧
    (truncateDiff c4diff 200 []).content.length + 48 ≤
      200 + c4hdr.length + (markerOf 9).length :=
  ⟨by decide, (c4_truncation_budget c4diff 200 []).2 c4hdr (markerOf 9) (by decide)⟩

/-- Claim C7 (confirmed, under the natural assumption that the threshold is
non-negative — the default is 0.8): the elevation calculator returns the
empty set when the total changed line count is below the minimum or the
low-tier fraction is at most the threshold, and otherwise returns exactly
the tier-0/1 paths appearing in the stat.  The source's extra `total === 0`
guard coincides with the fraction test, since `0 / 0 = 0 ≤ threshold` in the
rational model. -/
theorem c7_elevated_paths (stat : Str) (threshold : ℚ) (minLines : Nat)
    (hth : 0 ≤ threshold) :
    computeElevatedPaths stat threshold minLines pathPriority =
      if statTotalChanged stat < minLines ∨
         (statLowTierLines stat : ℚ) / (statTotalChanged stat : ℚ) ≤ threshold then []
      else statLowTierPaths stat := by
  unfold computeElevatedPaths statTotalChanged statLowTierLines statLowTierPaths
  dsimp only
  rw [foldl_counts_sum, foldl_low_counts_sum]
  simp only [Nat.zero_add]
  split_ifs with h1 h2 h3 h4 h5 <;> try rfl
  · exfalso
    rcases h1 with h1 | h1
    · exact h2 (Or.inl h1)
    · apply h2
      right
      rw [h1]
      simpa using hth
  · exact absurd (Or.inr h3) h4
  · exfalso
    rcases h5 with h5 | h5
    · exact h1 (Or.inl h5)
    · exact h3 h5

/-- Witness for C7 on a concrete stat where the low-tier file dominates:
the elevated set is exactly the low-tier path `data.json`. -/
theorem c7_elevated_paths_witness :
    computeElevatedPaths w7stat (4/5 : ℚ) 0 pathPriority =
      (if statTotalChanged w7stat < 0 ∨
          (statLowTierLines w7stat : ℚ) / (statTotalChanged w7stat : ℚ) ≤ (4/5 : ℚ)
       then [] else statLowTierPaths w7stat) ∧
    computeElevatedPaths w7stat (4/5 : ℚ) 0 pathPriority = ["data.json".data] := by
  refine ⟨c7_elevated_paths w7stat (4/5 : ℚ) 0 (by norm_num), ?_⟩
  rw [c7_elevated_paths w7stat (4/5 : ℚ) 0 (by norm_num)]
  rw [show statTotalChanged w7stat = 105 from by decide,
      show statLowTierLines w7stat = 100 from by decide,
      show statLowTierPaths w7stat = ["data.json".data] from by decide]
  norm_num

theorem jsTrim_wrap (p mid q : Str) (hpne : p ≠ []) (hph : headIsWs p = false)
    (hqne : q ≠ []) (hqrev : headIsWs q.reverse = false) :
    jsTrim (p ++ mid ++ q) = p ++ mid ++ q := by
  unfold jsTrim
  have h1 : trimStart (p ++ (mid ++ q)) = p ++ (mid ++ q) := trimStart_append hpne hph
  rw [List.append_assoc, h1, ← List.append_assoc]
  exact trimEnd_append hqne hqrev

theorem jsTrim_wrap_ws (p mid q : Str) (hpne : p ≠ []) (hph : headIsWs p = false)
    (hqne : q ≠ []) (hqrev : headIsWs q.reverse = false) :
    jsTrim (p ++ mid ++ q ++ [' ']) = p ++ mid ++ q := by
  unfold jsTrim
  have h1 : trimStart (p ++ (mid ++ (q ++ [' ']))) = p ++ (mid ++ (q ++ [' '])) :=
    trimStart_append hpne hph
  rw [List.append_assoc, List.append_assoc, h1, ← List.append_assoc, ← List.append_assoc]
  rw [trimEnd_append_ws ' ' (by decide)]
  exact trimEnd_append hqne hqrev

theorem parseStatLine_shape (path rest0 : Str) (hpne : path ≠ [])
    (hpp : '|' ∉ path) (hph : headIsWs path = false) (hpte : trimEnd path = path)
    (hfc : filesChangedTest (path ++ ' ' :: '|' :: ' ' :: rest0) = false) :
    parseStatLine [] (path ++ ' ' :: '|' :: ' ' :: rest0) =
      [(path, statAr (jsTrim (' ' :: rest0)))] := by
  unfold parseStatLine
  rw [if_neg (by simp [hfc])]
  have hidx : idxOf '|' (path ++ ' ' :: '|' :: ' ' :: rest0) = some (path.length + 1) := by
    rw [idxOf_append hpp]
    simp [idxOf, Nat.add_comm]
  rw [hidx]
  have htake : (path ++ ' ' :: '|' :: ' ' :: rest0).take (path.length + 1) =
      path ++ [' '] := by
    rw [List.take_append_eq_append_take]
    congr 1
    · exact List.take_of_length_le (by omega)
    · simp
  have htrimtake : jsTrim (path ++ [' ']) = path := by
    unfold jsTrim
    rw [trimStart_append hpne hph, trimEnd_append_ws ' ' (by decide)]
    exact hpte
  have hdrop : (path ++ ' ' :: '|' :: ' ' :: rest0).drop (path.length + 1 + 1) =
      ' ' :: rest0 := by
    rw [List.drop_append_eq_append_drop]
    rw [List.drop_eq_nil_of_le (by omega)]
    rw [show path.length + 1 + 1 - path.length = 2 from by omega]
    simp
  dsimp only
  rw [htake, htrimtake, hdrop]
  simp [mapSet]

theorem jsTrim_ws_cons_digits (d tail : Str) (hdne : d ≠ [])
    (hdall : ∀ c ∈ d, isWs c = false)
    (htail : trimEnd (d ++ tail) = d ++ tail) :
    jsTrim (' ' :: (d ++ tail)) = d ++ tail := by
  unfold jsTrim
  rw [trimStart_cons_ws (by decide)]
  have h1 : trimStart (d ++ tail) = d ++ tail :=
    trimStart_append hdne (headIsWs_of_all hdall)
  rw [h1]
  exact htail

theorem statAr_of_digits_bar (n : Nat) (bar : Str) (hbt : jsTrim bar = bar) :
    statAr (natDigits n ++ ' ' :: bar) =
      (if 0 < bar.count '+' ∧ 0 < bar.count '-' then (bar.count '+', bar.count '-')
       else if 0 < bar.count '+' then (n, 0)
       else if 0 < bar.count '-' then (0, n)
       else (n, 0)) := by
  have hDdigit : ∀ c ∈ natDigits n, c.isDigit = true := fun c hc => (natDigits_ok n c hc).1
  have hds : (natDigits n ++ ' ' :: bar).takeWhile Char.isDigit = natDigits n := by
    rw [takeWhile_all_append hDdigit]
    rw [takeWhile_cons_neg (by decide)]
    simp
  have hdsne : (natDigits n ++ ' ' :: bar).takeWhile Char.isDigit ≠ [] := by
    rw [hds]; exact natDigits_ne_nil n
  have hdrop : (natDigits n ++ ' ' :: bar).drop (natDigits n).length = ' ' :: bar := by
    rw [List.drop_append_eq_append_drop]
    rw [List.drop_eq_nil_of_le (by omega)]
    simp
  have hbtrim : jsTrim (' ' :: bar) = bar := by
    unfold jsTrim
    rw [trimStart_cons_ws (by decide)]
    rw [trimStart_of_jsTrim hbt]
    exact trimEnd_of_jsTrim hbt
  unfold statAr
  dsimp only
  rw [hds]
  rw [if_neg (natDigits_ne_nil n), if_neg (natDigits_ne_nil n)]
  rw [natOfDigits_natDigits, hdrop, hbtrim]
  by_cases hp : 0 < bar.count '+' <;> by_cases hm : 0 < bar.count '-' <;>
    simp [hp, hm]

theorem statAr_of_digits_only (n : Nat) :
    statAr (natDigits n) = (n, 0) := by
  have hDdigit : ∀ c ∈ natDigits n, c.isDigit = true := fun c hc => (natDigits_ok n c hc).1
  have hds : (natDigits n).takeWhile Char.isDigit = natDigits n := by
    have := takeWhile_all_append hDdigit ([] : Str)
    simpa using this
  unfold statAr
  dsimp only
  rw [hds]
  rw [if_neg (natDigits_ne_nil n), if_neg (natDigits_ne_nil n)]
  rw [natOfDigits_natDigits]
  simp [jsTrim, trimStart, trimEnd]

/-- Claim C10 (confirmed): for a stat line `<path> | <N> <bar>` (with a
well-formed path and bar: non-empty trimmed path without `|` or newline,
trimmed bar without newline, and the line not matching the files-changed
summary pattern), the parser attributes counts exactly as described — both
signs present: the bar's `+` and `-` counts (the numeric total is ignored);
only `+`: `(N, 0)`; only `-`: `(0, N)`; neither: `(N, 0)`.  Moreover a line
without a pipe, or the trailing `files changed` summary line, contributes no
entry. -/
theorem c10_stat_line_attribution :
    (∀ (path bar : Str) (n : Nat),
      path ≠ [] → '\n' ∉ path → '|' ∉ path → jsTrim path = path →
      '\n' ∉ bar → jsTrim bar = bar →
      filesChangedTest (jsTrim (statLineOf path n bar)) = false →
      parseStatForLineCounts (statLineOf path n bar) =
        [(path,
          if 0 < bar.count '+' ∧ 0 < bar.count '-' then (bar.count '+', bar.count '-')
          else if 0 < bar.count '+' then (n, 0)
          else if 0 < bar.count '-' then (0, n)
          else (n, 0))]) ∧
    (∀ l : Str, '\n' ∉ l →
      (idxOf '|' (jsTrim l) = none ∨ filesChangedTest (jsTrim l) = true) →
      parseStatForLineCounts l = []) := by
  constructor
  · intro path bar n hpne hpnl hpp hpt hbnl hbt hfc
    have hph : headIsWs path = false := headIsWs_false_of_trimStart (trimStart_of_jsTrim hpt)
    have hpte : trimEnd path = path := trimEnd_of_jsTrim hpt
    have hDall : ∀ c ∈ natDigits n, isWs c = false := fun c hc => (natDigits_ok n c hc).2.1
    have hDnl : ∀ c ∈ natDigits n, c ≠ '\n' := fun c hc => (natDigits_ok n c hc).2.2.1
    have hDne := natDigits_ne_nil n
    have hDrev : headIsWs (natDigits n).reverse = false := headIsWs_reverse_of_all hDall hDne
    have hshape : statLineOf path n bar =
        path ++ ([' ', '|', ' '] ++ natDigits n ++ [' ']) ++ bar := by
      unfold statLineOf
      rw [show " | ".data = [' ', '|', ' '] from rfl, show " ".data = [' '] from rfl]
      simp [List.append_assoc]
    by_cases hbar : bar = []
    · subst hbar
      have htrim : jsTrim (statLineOf path n []) =
          path ++ ' ' :: '|' :: ' ' :: natDigits n := by
        rw [hshape]
        simp only [List.append_nil]
        rw [show path ++ ([' ', '|', ' '] ++ natDigits n ++ [' ']) =
            path ++ [' ', '|', ' '] ++ natDigits n ++ [' '] from by
          simp [List.append_assoc]]
        rw [jsTrim_wrap_ws path [' ', '|', ' '] (natDigits n) hpne hph hDne hDrev]
        simp [List.append_assoc]
      have hnl' : '\n' ∉ path ++ ' ' :: '|' :: ' ' :: natDigits n := by
        intro hmem
        simp only [List.mem_append, List.mem_cons] at hmem
        rcases hmem with h | h | h | h | h
        · exact hpnl h
        · exact absurd h (by decide)
        · exact absurd h (by decide)
        · exact absurd h (by decide)
        · exact hDnl '\n' h rfl
      have hne' : path ++ ' ' :: '|' :: ' ' :: natDigits n ≠ [] := by
        cases path with
        | nil => exact absurd rfl hpne
        | cons c cs => simp
      rw [htrim] at hfc
      unfold parseStatForLineCounts
      dsimp only
      rw [htrim, splitCh_no_sep hnl']
      rw [show (([path ++ ' ' :: '|' :: ' ' :: natDigits n] :
          List Str).filter (fun l => l ≠ [])) =
          [path ++ ' ' :: '|' :: ' ' :: natDigits n] from by simp [hne']]
      rw [show ∀ x : Str, List.foldl parseStatLine [] [x] = parseStatLine [] x from
        fun x => rfl]
      rw [parseStatLine_shape path (natDigits n) hpne hpp hph hpte hfc]
      have htail : trimEnd (natDigits n ++ []) = natDigits n ++ [] := by
        simp only [List.append_nil]
        exact trimEnd_eq_self hDrev
      have := jsTrim_ws_cons_digits (natDigits n) [] hDne hDall htail
      simp only [List.append_nil] at this
      rw [this, statAr_of_digits_only]
      simp
    · have hbrev : headIsWs bar.reverse = false :=
        headIsWs_reverse_false_of_trimEnd (trimEnd_of_jsTrim hbt)
      have htrim : jsTrim (statLineOf path n bar) = statLineOf path n bar := by
        rw [hshape]
        exact jsTrim_wrap path _ bar hpne hph hbar hbrev
      have hshape2 : statLineOf path n bar =
          path ++ ' ' :: '|' :: ' ' :: (natDigits n ++ ' ' :: bar) := by
        rw [hshape]
        simp [List.append_assoc]
      have hnl' : '\n' ∉ path ++ ' ' :: '|' :: ' ' :: (natDigits n ++ ' ' :: bar) := by
        intro hmem
        simp only [List.mem_append, List.mem_cons] at hmem
        rcases hmem with h | h | h | h | h | h | h
        · exact hpnl h
        · exact absurd h (by decide)
        · exact absurd h (by decide)
        · exact absurd h (by decide)
        · exact hDnl '\n' h rfl
        · exact absurd h (by decide)
        · exact hbnl h
      have hne' : path ++ ' ' :: '|' :: ' ' :: (natDigits n ++ ' ' :: bar) ≠ [] := by
        cases path with
        | nil => exact absurd rfl hpne
        | cons c cs => simp
      rw [htrim, hshape2] at hfc
      unfold parseStatForLineCounts
      dsimp only
      rw [htrim, hshape2, splitCh_no_sep hnl']
      rw [show (([path ++ ' ' :: '|' :: ' ' :: (natDigits n ++ ' ' :: bar)] :
          List Str).filter (fun l => l ≠ [])) =
          [path ++ ' ' :: '|' :: ' ' :: (natDigits n ++ ' ' :: bar)] from by simp [hne']]
      rw [show ∀ x : Str, List.foldl parseStatLine [] [x] = parseStatLine [] x from
        fun x => rfl]
      rw [parseStatLine_shape path (natDigits n ++ ' ' :: bar) hpne hpp hph hpte hfc]
      have htail : trimEnd (natDigits n ++ ' ' :: bar) = natDigits n ++ ' ' :: bar := by
        rw [show natDigits n ++ ' ' :: bar = (natDigits n ++ [' ']) ++ bar from by simp]
        exact trimEnd_append hbar hbrev
      rw [jsTrim_ws_cons_digits (natDigits n) (' ' :: bar) hDne hDall htail]
      rw [statAr_of_digits_bar n bar hbt]
  · intro l hnl hcond
    have hnt : '\n' ∉ jsTrim l := fun hm => hnl (mem_of_mem_jsTrim hm)
    unfold parseStatForLineCounts
    dsimp only
    rw [splitCh_no_sep hnt]
    by_cases hemp : jsTrim l = []
    · simp [hemp]
    · rw [show (([jsTrim l] : List Str).filter (fun x => x ≠ [])) = [jsTrim l] from by
        simp [hemp]]
      rw [show ∀ x : Str, List.foldl parseStatLine [] [x] = parseStatLine [] x from
        fun x => rfl]
      unfold parseStatLine
      rcases hcond with hcond | hcond
      · rw [hcond]
        split <;> rfl
      · rw [if_pos hcond]

/-- Witness for C10 on the concrete stat line `src/app.ts | 5 +++--`:
both signs present, so added = 3 and removed = 2. -/
theorem c10_stat_line_attribution_witness :
    parseStatForLineCounts (statLineOf "src/app.ts".data 5 "+++--".data) =
      [("src/app.ts".data,
        if 0 < "+++--".data.count '+' ∧ 0 < "+++--".data.count '-' then
          ("+++--".data.count '+', "+++--".data.count '-')
        else if 0 < "+++--".data.count '+' then (5, 0)
        else if 0 < "+++--".data.count '-' then (0, 5)
        else (5, 0))] :=
  c10_stat_line_attribution.1 "src/app.ts".data "+++--".data 5 (by decide) (by decide)
    (by decide) (by decide) (by decide) (by decide) (by decide)

end CommitAI
